import Mathlib

/-!
Shallow embedding of the dependency-tracking core of the repository
(src/src/core/derivation.ts) together with the collaborator operations it
calls (observer-set add/remove and read reporting, which live outside src/
and are modelled from the spec).

Cells (atoms) and derivations are identified by natural numbers.  Every
entity is a `Node` carrying both the observable-side fields (observers,
diffValue, lowestObserverState) and the derivation-side fields (observing,
newObserving, dependenciesState, unboundDepsCount, runId); a plain atom is
a node whose `dependenciesState` is `none`, mirroring the TypeScript code
where a plain observable has no `dependenciesState` property (the upcast in
`bindDependencies` reads `undefined` there).  The process-wide globals of
globalstate.ts that derivation.ts reads are fields of `MobxState`.
-/

set_option maxHeartbeats 1000000

namespace MobxCore

/-- Staleness states of a derivation (`IDerivationState` in core/derivation.ts). -/
inductive IDerivationState where
  | NOT_TRACKING
  | UP_TO_DATE
  | POSSIBLY_STALE
  | STALE
deriving DecidableEq

/-- Numeric value of each staleness state, matching the TypeScript enum
values -1, 0, 1, 2; `bindDependencies` compares states through these values. -/
def stateValue : IDerivationState → Int
  | IDerivationState.NOT_TRACKING => -1
  | IDerivationState.UP_TO_DATE => 0
  | IDerivationState.POSSIBLY_STALE => 1
  | IDerivationState.STALE => 2

/-- One entity of the reactive graph: the observable-side fields of
`IObservable`/`IAtom` together with the derivation-side fields of
`IDerivation`.  `dependenciesState = none` models a plain atom (the
TypeScript property is absent); `staleCount` counts invocations of the
derivation's `onBecomeStale` capability, which is supplied by the owning
reaction/computed construct outside this core. -/
structure Node where
  observers : List Nat := []
  diffValue : Nat := 0
  lowestObserverState : IDerivationState := IDerivationState.UP_TO_DATE
  observing : List Nat := []
  newObserving : Option (List Nat) := none
  dependenciesState : Option IDerivationState := none
  unboundDepsCount : Nat := 0
  runId : Nat := 0
  staleCount : Nat := 0
deriving DecidableEq

/-- The whole mutable state: the node heap plus the fields of
`globalState` that core/derivation.ts reads or writes
(trackingDerivation, runId, computationDepth, allowStateChanges, strictMode). -/
@[ext]
structure MobxState where
  nodes : Nat → Node
  trackingDerivation : Option Nat := none
  runId : Nat := 0
  computationDepth : Nat := 0
  allowStateChanges : Bool := true
  strictMode : Bool := false

/-- Replace the node stored at index `i`. -/
def setNode (s : MobxState) (i : Nat) (n : Node) : MobxState :=
  { s with nodes := fun j => if j = i then n else s.nodes j }

/-- Update the node stored at index `i` with `f`. -/
def updNode (s : MobxState) (i : Nat) (f : Node → Node) : MobxState :=
  setNode s i (f (s.nodes i))

/-- Modelled from the spec: `addObserver` (core/observable.ts, not under
src/) — the Reactive Cell contract exposes "observer set add"; the
derivation is added to the cell's observer set. -/
def addObserver (s : MobxState) (c d : Nat) : MobxState :=
  updNode s c (fun n => { n with observers := n.observers ++ [d] })

/-- Modelled from the spec: `removeObserver` (core/observable.ts, not under
src/) — the Reactive Cell contract exposes "observer set remove"; the
derivation is removed from the cell's observer set. -/
def removeObserver (s : MobxState) (c d : Nat) : MobxState :=
  updNode s c (fun n => { n with observers := n.observers.filter (fun x => x != d) })

/-- The floor-reset loop of `changeDependenciesStateTo0`
(`while (i--) obs[i].lowestObserverState = UP_TO_DATE`), processing the
given list front to back; the caller passes the reversed dependency list. -/
def resetFloors (l : List Nat) (s : MobxState) : MobxState :=
  match l with
  | [] => s
  | c :: rest =>
      resetFloors rest
        (updNode s c (fun n => { n with lowestObserverState := IDerivationState.UP_TO_DATE }))

/-- `changeDependenciesStateTo0` (core/derivation.ts): if the derivation is
already UP_TO_DATE return immediately, otherwise set its state to
UP_TO_DATE and reset the lowest-observer-state floor of every current
dependency. -/
def changeDependenciesStateTo0 (s : MobxState) (d : Nat) : MobxState :=
  if (s.nodes d).dependenciesState = some IDerivationState.UP_TO_DATE then s
  else
    let s1 := updNode s d (fun n => { n with dependenciesState := some IDerivationState.UP_TO_DATE })
    resetFloors ((s1.nodes d).observing).reverse s1

/-- Modelled from the spec: `reportObserved` (core/observable.ts, not under
src/) — every Reactive Cell read during evaluation registers itself into
the tracking derivation's pending-read buffer (spec 4.3), which "may
contain duplicates — the same cell read more than once in one evaluation";
the run-id early dedup mentioned in spec section 3 only removes duplicates the
bind step drops anyway, so the buffer append is kept unconditional here.
With no tracking derivation installed, the read is not recorded. -/
def reportObserved (s : MobxState) (c : Nat) : MobxState :=
  match s.trackingDerivation with
  | some d =>
      updNode s d (fun n =>
        { n with
          newObserving := some ((n.newObserving.getD []) ++ [c]),
          unboundDepsCount := n.unboundDepsCount + 1 })
  | none => s

/-- A derivation body that just reads the given cells in order. -/
def runReads (l : List Nat) (s : MobxState) : MobxState :=
  match l with
  | [] => s
  | c :: rest => runReads rest (reportObserved s c)

/-- `untrackedStart` (core/derivation.ts): clear the tracking derivation and
return the previous one. -/
def untrackedStart (s : MobxState) : MobxState × Option Nat :=
  ({ s with trackingDerivation := none }, s.trackingDerivation)

/-- `untrackedEnd` (core/derivation.ts): restore a previously saved tracking
derivation. -/
def untrackedEnd (s : MobxState) (prev : Option Nat) : MobxState :=
  { s with trackingDerivation := prev }

/-- `untracked` (core/derivation.ts).  The thunk is a state transformer that
either returns a value or raises (`Except.error`).  The TypeScript body has
no try/finally, so when the thunk raises, `untrackedEnd` is never executed
and the raised failure propagates with the state exactly as the thunk left
it. -/
def untracked {ε α : Type} (f : MobxState → MobxState × Except ε α) (s : MobxState) :
    MobxState × Except ε α :=
  let p := untrackedStart s
  match f p.1 with
  | (s2, Except.ok v) => (untrackedEnd s2 p.2, Except.ok v)
  | (s2, Except.error e) => (s2, Except.error e)

/-- The two distinct failures `checkIfStateModificationsAreAllowed` can
raise: message m031 (mutating an observed atom while a computation is in
progress) and messages m030a/m030b (mutating observed state while state
changes are not allowed; the flag records whether strict mode picked
m030a or m030b).  The atom's diagnostic name is represented by its id. -/
inductive MutationFailure where
  | insideComputation (atom : Nat)
  | stateChangeNotAllowed (strict : Bool) (atom : Nat)
deriving DecidableEq

/-- `checkIfStateModificationsAreAllowed` (core/derivation.ts): pure
validation that raises (via `fail`) on the first violated check and
otherwise returns without touching any state. -/
def checkIfStateModificationsAreAllowed (s : MobxState) (atom : Nat) :
    Except MutationFailure Unit :=
  let hasObservers := (s.nodes atom).observers.length > 0
  if s.computationDepth > 0 ∧ hasObservers then
    Except.error (MutationFailure.insideComputation atom)
  else if s.allowStateChanges = false ∧ hasObservers then
    Except.error (MutationFailure.stateChangeNotAllowed s.strictMode atom)
  else
    Except.ok ()

/-- Outcome of the POSSIBLY_STALE scan loop of `shouldCompute`: either the
loop returned early (`stopped`: an early `return true`) or it ran off the
end of the dependency list (`completed`). -/
inductive ScanOutcome where
  | stopped (s : MobxState)
  | completed (s : MobxState)

/-- The dependency-scan loop of `shouldCompute` (the `for` loop of the
POSSIBLY_STALE case).  `comp` is the immutable `isComputedValue` test; `get`
is the external `ComputedValue.get` forcing (core/computedvalue.ts, outside
src/), given as an arbitrary state transformer whose boolean result records
whether it raised (the loop's try/catch consumes that failure).  Besides the
outcome, the list of dependencies actually forced is returned, in order. -/
def scanObs (comp : Nat → Bool) (get : Nat → MobxState → MobxState × Bool) (d : Nat) :
    List Nat → MobxState → ScanOutcome × List Nat
  | [], s => (ScanOutcome.completed s, [])
  | o :: rest, s =>
      if comp o then
        let g := get o s
        if g.2 then (ScanOutcome.stopped g.1, [o])
        else if (g.1.nodes d).dependenciesState = some IDerivationState.STALE then
          (ScanOutcome.stopped g.1, [o])
        else
          let r := scanObs comp get d rest g.1
          (r.1, o :: r.2)
      else scanObs comp get d rest s

/-- `shouldCompute` (core/derivation.ts).  Returns the updated state, the
boolean answer, and (as an observation of the run) the list of dependencies
that were forced.  A `none` dependenciesState (not a derivation) falls
through the switch in TypeScript, returning `undefined`, which callers
consume as false. -/
def shouldCompute (comp : Nat → Bool) (get : Nat → MobxState → MobxState × Bool) (d : Nat)
    (s : MobxState) : MobxState × Bool × List Nat :=
  match (s.nodes d).dependenciesState with
  | some IDerivationState.UP_TO_DATE => (s, false, [])
  | some IDerivationState.NOT_TRACKING => (s, true, [])
  | some IDerivationState.STALE => (s, true, [])
  | some IDerivationState.POSSIBLY_STALE =>
      let p := untrackedStart s
      match scanObs comp get d ((p.1.nodes d).observing) p.1 with
      | (ScanOutcome.stopped s1, tr) => (untrackedEnd s1 p.2, true, tr)
      | (ScanOutcome.completed s1, tr) =>
          let s2 := changeDependenciesStateTo0 s1 d
          (untrackedEnd s2 p.2, false, tr)
  | none => (s, false, [])

/-- One step of the running maximum in `bindDependencies`:
`if (dep.dependenciesState > lowestNewObservingDerivationState) lowest := dep.dependenciesState`;
a plain atom has no `dependenciesState` (none), and `undefined > x` is false. -/
def maxStateOpt (acc : IDerivationState) (o : Option IDerivationState) : IDerivationState :=
  match o with
  | some st => if stateValue acc < stateValue st then st else acc
  | none => acc

/-- The "lowest new observing state" of spec section 4.3 step 5: the running
maximum of `dependenciesState` over the pending-read buffer, starting from
UP_TO_DATE, exactly as the first loop of `bindDependencies` computes it. -/
def lowestNewObserving (s : MobxState) (pending : List Nat) : IDerivationState :=
  pending.foldl (fun acc c => maxStateOpt acc ((s.nodes c).dependenciesState))
    IDerivationState.UP_TO_DATE

/-- First loop of `bindDependencies`: walk the pending-read buffer; a cell
whose diff marker is 0 is a first occurrence (mark it 1 and keep it), any
other occurrence is dropped; simultaneously accumulate the running maximum
of the entries' `dependenciesState`.  Returns the updated state, the kept
(deduplicated) list in order, and the accumulated maximum. -/
def bindPass1 : List Nat → MobxState → IDerivationState →
    MobxState × List Nat × IDerivationState
  | [], s, low => (s, [], low)
  | c :: rest, s, low =>
      if (s.nodes c).diffValue = 0 then
        let s1 := updNode s c (fun n => { n with diffValue := 1 })
        let r := bindPass1 rest s1 (maxStateOpt low ((s1.nodes c).dependenciesState))
        (r.1, c :: r.2.1, r.2.2)
      else
        bindPass1 rest s (maxStateOpt low ((s.nodes c).dependenciesState))

/-- Second loop of `bindDependencies`: walk the previous dependency list (the
caller passes it reversed, matching `while (l--)`); a cell whose diff marker
is still 0 was not re-read, so the derivation is unsubscribed from it; every
visited cell's diff marker is reset to 0. -/
def bindPass2 (d : Nat) : List Nat → MobxState → MobxState
  | [], s => s
  | c :: rest, s =>
      let s1 := if (s.nodes c).diffValue = 0 then removeObserver s c d else s
      let s2 := updNode s1 c (fun n => { n with diffValue := 0 })
      bindPass2 d rest s2

/-- Third loop of `bindDependencies`: walk the deduplicated new list (the
caller passes it reversed, matching `while (i0--)`); a cell whose diff
marker is still 1 was not previously observed, so subscribe the derivation
to it and reset the marker. -/
def bindPass3 (d : Nat) : List Nat → MobxState → MobxState
  | [], s => s
  | c :: rest, s =>
      let s1 :=
        if (s.nodes c).diffValue = 1 then
          addObserver (updNode s c (fun n => { n with diffValue := 0 })) c d
        else s
      bindPass3 d rest s1

/-- The three diff loops and the final staleness step of `bindDependencies`,
over an explicit previous dependency list and pending-read buffer. -/
def bindDiff (s : MobxState) (d : Nat) (prev pend : List Nat) : MobxState :=
  let r := bindPass1 pend s IDerivationState.UP_TO_DATE
  let s2 := updNode r.1 d (fun n => { n with observing := r.2.1 })
  let s3 := bindPass2 d prev.reverse s2
  let s4 := bindPass3 d r.2.1.reverse s3
  if r.2.2 = IDerivationState.UP_TO_DATE then s4
  else
    updNode (updNode s4 d (fun n => { n with dependenciesState := some r.2.2 })) d
      (fun n => { n with staleCount := n.staleCount + 1 })

/-- `bindDependencies` (core/derivation.ts): diff the pending-read buffer
(first `unboundDepsCount` entries of `newObserving`) against the previous
dependency list, clear `newObserving`, update `observing` to the
deduplicated new list, adjust observer sets, and, when the accumulated
"lowest new observing state" is not UP_TO_DATE, raise the derivation's own
state to it and invoke its `onBecomeStale` capability (recorded by bumping
`staleCount`; the callback itself is supplied by the owning
reaction/computed construct outside this core). -/
def bindDependencies (s : MobxState) (d : Nat) : MobxState :=
  bindDiff (updNode s d (fun n => { n with newObserving := none })) d
    ((s.nodes d).observing)
    (((s.nodes d).newObserving.getD []).take (s.nodes d).unboundDepsCount)

/-- Result of `trackDerivedFunction`: either the body's value, or the body's
failure wrapped as the distinguished `CaughtException` value that is handed
back to the caller for re-raising. -/
inductive TrackResult (ε α : Type) where
  | value (a : α)
  | caught (e : ε)
deriving DecidableEq

/-- `trackDerivedFunction` (core/derivation.ts): force the derivation
UP_TO_DATE, reset the pending-read buffer, mint a fresh run id, install the
derivation as the tracking derivation, run the body (a failure is caught and
carried as a `caught` result), restore the previous tracking derivation
unconditionally, bind dependencies, and return the result. -/
def trackDerivedFunction {ε α : Type} (d : Nat)
    (f : MobxState → MobxState × Except ε α) (s : MobxState) :
    MobxState × TrackResult ε α :=
  let s1 := changeDependenciesStateTo0 s d
  let s2 := { s1 with runId := s1.runId + 1 }
  let s3 := updNode s2 d (fun n =>
    { n with newObserving := some [], unboundDepsCount := 0, runId := s2.runId })
  let prevTracking := s3.trackingDerivation
  let s4 := { s3 with trackingDerivation := some d }
  let p := f s4
  let s6 := { p.1 with trackingDerivation := prevTracking }
  let s7 := bindDependencies s6 d
  (s7, match p.2 with
       | Except.ok v => TrackResult.value v
       | Except.error e => TrackResult.caught e)

/-- The unsubscribe loop of `clearObserving` (`while (i--) removeObserver`),
processing the given list front to back; the caller passes the reversed
dependency list. -/
def removeObsList (d : Nat) : List Nat → MobxState → MobxState
  | [], s => s
  | c :: rest, s => removeObsList d rest (removeObserver s c d)

/-- `clearObserving` (core/derivation.ts): empty the dependency list,
unsubscribe from every previously observed cell, and force the state to
NOT_TRACKING. -/
def clearObserving (s : MobxState) (d : Nat) : MobxState :=
  let obs := (s.nodes d).observing
  let s1 := updNode s d (fun n => { n with observing := [] })
  let s2 := removeObsList d obs.reverse s1
  updNode s2 d (fun n => { n with dependenciesState := some IDerivationState.NOT_TRACKING })

/-- Ordered deduplication relative to a set of already-marked cells: keep
each unmarked cell at its first occurrence, marking it for the rest of the
walk.  This is the reference description of what the diff markers achieve
in the first loop of `bindDependencies`. -/
def keptOf (marked : Nat → Bool) : List Nat → List Nat
  | [] => []
  | c :: rest =>
      if marked c then keptOf marked rest
      else c :: keptOf (fun x => x == c || marked x) rest

/-- The sequence of first occurrences of a read list, in read order, with
duplicates dropped. -/
def dedupFirst (l : List Nat) : List Nat := keptOf (fun _ => false) l

/-- The well-formedness invariant of the reactive graph outside an in-flight
tracking pass: observer sets and dependency lists mirror each other, both
are duplicate-free, and every diff marker rests at its neutral value 0. -/
def GoodState (s : MobxState) : Prop :=
  (∀ a b, a ∈ (s.nodes b).observers ↔ b ∈ (s.nodes a).observing) ∧
  (∀ a, ((s.nodes a).observing).Nodup) ∧
  (∀ a, ((s.nodes a).observers).Nodup) ∧
  (∀ a, (s.nodes a).diffValue = 0)

/-- The empty heap: every node is the default node, no tracking derivation. -/
def stInit : MobxState := { nodes := fun _ => {} }

/-- A heap whose every node is an UP_TO_DATE derivation with no links. -/
def stTrack : MobxState :=
  { nodes := fun _ => { dependenciesState := some IDerivationState.UP_TO_DATE } }

/-- A state in which derivation 0 is currently the tracking derivation. -/
def stUntracked : MobxState := { nodes := fun _ => {}, trackingDerivation := some 0 }

/-- A thunk that raises without touching the state. -/
def fRaise : MobxState → MobxState × Except Unit Unit := fun t => (t, Except.error ())

/-- Derivation 0 is already UP_TO_DATE while its dependency 1 still carries a
STALE lowest-observer floor. -/
def stFloorUp : MobxState :=
  { nodes := fun j =>
      if j = 0 then { dependenciesState := some IDerivationState.UP_TO_DATE, observing := [1] }
      else if j = 1 then { lowestObserverState := IDerivationState.STALE, observers := [0] }
      else {} }

/-- Derivation 0 is STALE while its dependency 1 carries a STALE floor. -/
def stFloorStale : MobxState :=
  { nodes := fun j =>
      if j = 0 then { dependenciesState := some IDerivationState.STALE, observing := [1] }
      else if j = 1 then { lowestObserverState := IDerivationState.STALE, observers := [0] }
      else {} }

/-- Derivation 0 is POSSIBLY_STALE with dependency list [1, 2]; 1 and 2 are
POSSIBLY_STALE computed cells observed by 0. -/
def stScan : MobxState :=
  { nodes := fun j =>
      if j = 0 then
        { dependenciesState := some IDerivationState.POSSIBLY_STALE, observing := [1, 2] }
      else if j = 1 then
        { dependenciesState := some IDerivationState.POSSIBLY_STALE, observers := [0] }
      else if j = 2 then
        { dependenciesState := some IDerivationState.POSSIBLY_STALE, observers := [0] }
      else {} }

/-- Cells 1 and 2 are the computed values of `stScan`. -/
def compScan : Nat → Bool := fun c => c == 1 || c == 2

/-- Forcing cell 1 propagates a definite change to derivation 0 (its state
becomes STALE); forcing anything else is a no-op; nothing raises. -/
def getStale : Nat → MobxState → MobxState × Bool := fun c t =>
  (if c = 1 then
     updNode t 0 (fun n => { n with dependenciesState := some IDerivationState.STALE })
   else t, false)

/-- Forcing cell 1 raises; forcing anything else is a no-op. -/
def getThrow : Nat → MobxState → MobxState × Bool := fun c t => (t, c == 1)

/-- Derivation 0 has a pending-read buffer [1, 2] where cell 1 is itself a
derivation that went STALE during the evaluation. -/
def stBindStale : MobxState :=
  { nodes := fun j =>
      if j = 0 then
        { dependenciesState := some IDerivationState.UP_TO_DATE,
          newObserving := some [1, 2], unboundDepsCount := 2 }
      else if j = 1 then { dependenciesState := some IDerivationState.STALE }
      else {} }

/-- Cell 0 has one observer; an evaluation is in progress. -/
def stGuard : MobxState :=
  { nodes := fun j => if j = 0 then { observers := [7] } else {}, computationDepth := 1 }

/-! ## Basic lemmas about the state operations -/

theorem updNode_nodes (s : MobxState) (i : Nat) (f : Node → Node) (j : Nat) :
    (updNode s i f).nodes j = if j = i then f (s.nodes i) else s.nodes j := rfl

@[simp]
theorem updNode_nodes_self (s : MobxState) (i : Nat) (f : Node → Node) :
    (updNode s i f).nodes i = f (s.nodes i) := by
  simp [updNode, setNode]

theorem updNode_nodes_ne (s : MobxState) (i : Nat) (f : Node → Node) {j : Nat} (h : j ≠ i) :
    (updNode s i f).nodes j = s.nodes j := by
  simp [updNode, setNode, h]

@[simp]
theorem updNode_trackingDerivation (s : MobxState) (i : Nat) (f : Node → Node) :
    (updNode s i f).trackingDerivation = s.trackingDerivation := rfl

@[simp]
theorem updNode_runId (s : MobxState) (i : Nat) (f : Node → Node) :
    (updNode s i f).runId = s.runId := rfl

@[simp]
theorem updNode_computationDepth (s : MobxState) (i : Nat) (f : Node → Node) :
    (updNode s i f).computationDepth = s.computationDepth := rfl

@[simp]
theorem updNode_allowStateChanges (s : MobxState) (i : Nat) (f : Node → Node) :
    (updNode s i f).allowStateChanges = s.allowStateChanges := rfl

@[simp]
theorem updNode_strictMode (s : MobxState) (i : Nat) (f : Node → Node) :
    (updNode s i f).strictMode = s.strictMode := rfl

theorem updNode_updNode_same (s : MobxState) (i : Nat) (f g : Node → Node) :
    updNode (updNode s i f) i g = updNode s i (fun n => g (f n)) := by
  ext j : 2
  · by_cases h : j = i <;> simp [updNode, setNode, h]
  all_goals rfl

/-! ## resetFloors and changeDependenciesStateTo0 -/

theorem resetFloors_nodes_notmem (l : List Nat) (s : MobxState) {c : Nat} (h : c ∉ l) :
    (resetFloors l s).nodes c = s.nodes c := by
  induction l generalizing s with
  | nil => rfl
  | cons a rest ih =>
      simp only [List.mem_cons, not_or] at h
      rw [resetFloors, ih _ h.2, updNode_nodes_ne _ _ _ h.1]

theorem resetFloors_lowest_mem (l : List Nat) (s : MobxState) {c : Nat} (h : c ∈ l) :
    ((resetFloors l s).nodes c).lowestObserverState = IDerivationState.UP_TO_DATE := by
  induction l generalizing s with
  | nil => cases h
  | cons a rest ih =>
      by_cases hr : c ∈ rest
      · rw [resetFloors]; exact ih _ hr
      · have hc : c = a := by
          rcases List.mem_cons.1 h with h1 | h1
          · exact h1
          · exact absurd h1 hr
        subst hc
        rw [resetFloors, resetFloors_nodes_notmem _ _ hr, updNode_nodes_self]

theorem resetFloors_dependenciesState (l : List Nat) (s : MobxState) (c : Nat) :
    ((resetFloors l s).nodes c).dependenciesState = (s.nodes c).dependenciesState := by
  induction l generalizing s with
  | nil => rfl
  | cons a rest ih =>
      rw [resetFloors, ih]
      by_cases h : c = a
      · subst h; simp
      · rw [updNode_nodes_ne _ _ _ h]

theorem changeDeps0_dependenciesState (s : MobxState) (d : Nat) :
    ((changeDependenciesStateTo0 s d).nodes d).dependenciesState =
      some IDerivationState.UP_TO_DATE ∨
    changeDependenciesStateTo0 s d = s ∧
      (s.nodes d).dependenciesState = some IDerivationState.UP_TO_DATE := by
  rw [changeDependenciesStateTo0]
  by_cases h : (s.nodes d).dependenciesState = some IDerivationState.UP_TO_DATE
  · right; rw [if_pos h]; exact ⟨rfl, h⟩
  · left; rw [if_neg h, resetFloors_dependenciesState]; simp

/-! ## C9: changeDependenciesStateTo0 -/

/-- C9 (counterexample): the claim says that after `changeDependenciesStateTo0`
the floor of every dependency is UP_TO_DATE regardless of which of the four
states the derivation was in.  When the derivation is already UP_TO_DATE the
function returns immediately without touching any floor: in `stFloorUp`,
derivation 0 is UP_TO_DATE, cell 1 is its dependency with a STALE floor, and
the floor is still STALE after the call. -/
theorem C9_counterexample :
    (stFloorUp.nodes 0).dependenciesState = some IDerivationState.UP_TO_DATE ∧
    1 ∈ (stFloorUp.nodes 0).observing ∧
    ((changeDependenciesStateTo0 stFloorUp 0).nodes 1).lowestObserverState ≠
      IDerivationState.UP_TO_DATE := by
  refine ⟨rfl, by decide, by decide⟩

/-- C9 (amended): after `changeDependenciesStateTo0` the derivation's
dependenciesState is UP_TO_DATE; if the derivation was not already
UP_TO_DATE, the lowest-observer floor of every cell in its dependency list is
reset to UP_TO_DATE; if it was already UP_TO_DATE, the call leaves the whole
state unchanged (in particular no floor is reset). -/
theorem C9_changeDependenciesStateTo0 (s : MobxState) (d : Nat) (st : IDerivationState)
    (h : (s.nodes d).dependenciesState = some st) :
    ((changeDependenciesStateTo0 s d).nodes d).dependenciesState =
      some IDerivationState.UP_TO_DATE ∧
    (st ≠ IDerivationState.UP_TO_DATE →
      ∀ c ∈ (s.nodes d).observing,
        ((changeDependenciesStateTo0 s d).nodes c).lowestObserverState =
          IDerivationState.UP_TO_DATE) ∧
    (st = IDerivationState.UP_TO_DATE → changeDependenciesStateTo0 s d = s) := by
  refine ⟨?_, ?_, ?_⟩
  · rcases changeDeps0_dependenciesState s d with h1 | ⟨h1, h2⟩
    · exact h1
    · rw [h1]; exact h2
  · intro hne c hc
    have hcond : ¬ (s.nodes d).dependenciesState = some IDerivationState.UP_TO_DATE := by
      rw [h]; simp [hne]
    rw [changeDependenciesStateTo0, if_neg hcond]
    apply resetFloors_lowest_mem
    rw [List.mem_reverse, updNode_nodes_self]
    exact hc
  · intro he
    subst he
    rw [changeDependenciesStateTo0, if_pos h]

/-- C9 witness: the amended theorem applied to `stFloorStale`, whose
derivation 0 is STALE with dependency list [1]. -/
theorem C9_witness :
    (stFloorStale.nodes 0).dependenciesState = some IDerivationState.STALE ∧
    (((changeDependenciesStateTo0 stFloorStale 0).nodes 0).dependenciesState =
        some IDerivationState.UP_TO_DATE ∧
      (IDerivationState.STALE ≠ IDerivationState.UP_TO_DATE →
        ∀ c ∈ (stFloorStale.nodes 0).observing,
          ((changeDependenciesStateTo0 stFloorStale 0).nodes c).lowestObserverState =
            IDerivationState.UP_TO_DATE) ∧
      (IDerivationState.STALE = IDerivationState.UP_TO_DATE →
        changeDependenciesStateTo0 stFloorStale 0 = stFloorStale)) :=
  ⟨rfl, C9_changeDependenciesStateTo0 stFloorStale 0 IDerivationState.STALE rfl⟩

/-! ## C7 and C10: the mutation guard -/

/-- C7: with at least one observer and computation depth over zero the guard
raises the computation-time violation; with at least one observer and state
changes not allowed it raises a failure, and when the depth is zero that
failure is the state-change violation, distinct from the computation-time
one; with depth zero and mutation permitted it raises nothing.  The guard is
pure validation by construction: its embedding returns only a verdict and no
state. -/
theorem C7_mutation_guard (s : MobxState) (atom : Nat) :
    ((s.nodes atom).observers ≠ [] → 0 < s.computationDepth →
      checkIfStateModificationsAreAllowed s atom =
        Except.error (MutationFailure.insideComputation atom)) ∧
    ((s.nodes atom).observers ≠ [] → s.allowStateChanges = false →
      ∃ e, checkIfStateModificationsAreAllowed s atom = Except.error e) ∧
    ((s.nodes atom).observers ≠ [] → s.allowStateChanges = false → s.computationDepth = 0 →
      checkIfStateModificationsAreAllowed s atom =
        Except.error (MutationFailure.stateChangeNotAllowed s.strictMode atom) ∧
      ∀ a, MutationFailure.stateChangeNotAllowed s.strictMode atom ≠
        MutationFailure.insideComputation a) ∧
    (s.computationDepth = 0 → s.allowStateChanges = true →
      checkIfStateModificationsAreAllowed s atom = Except.ok ()) := by
  refine ⟨?_, ?_, ?_, ?_⟩
  · intro hobs hdepth
    have hlen : 0 < (s.nodes atom).observers.length := List.length_pos.2 hobs
    rw [checkIfStateModificationsAreAllowed, if_pos ⟨hdepth, hlen⟩]
  · intro hobs hallow
    have hlen : 0 < (s.nodes atom).observers.length := List.length_pos.2 hobs
    rw [checkIfStateModificationsAreAllowed]
    by_cases hd : 0 < s.computationDepth
    · rw [if_pos ⟨hd, hlen⟩]; exact ⟨_, rfl⟩
    · rw [if_neg (fun hc => hd hc.1), if_pos ⟨hallow, hlen⟩]; exact ⟨_, rfl⟩
  · intro hobs hallow hdepth
    have hlen : 0 < (s.nodes atom).observers.length := List.length_pos.2 hobs
    constructor
    · rw [checkIfStateModificationsAreAllowed,
        if_neg (fun hc => by rw [hdepth] at hc; exact Nat.lt_irrefl 0 hc.1),
        if_pos ⟨hallow, hlen⟩]
    · intro a h
      cases h
  · intro hdepth hallow
    rw [checkIfStateModificationsAreAllowed,
      if_neg (fun hc => by rw [hdepth] at hc; exact Nat.lt_irrefl 0 hc.1),
      if_neg (fun hc => by rw [hallow] at hc; cases hc.1)]

/-- C7 witness: the guard theorem applied to `stGuard` (cell 0 has observer
7, depth 1): the first conjunct fires with the computation-time violation. -/
theorem C7_witness :
    (stGuard.nodes 0).observers ≠ [] ∧ 0 < stGuard.computationDepth ∧
    checkIfStateModificationsAreAllowed stGuard 0 =
      Except.error (MutationFailure.insideComputation 0) :=
  ⟨by decide, by decide, (C7_mutation_guard stGuard 0).1 (by decide) (by decide)⟩

/-- C10: a cell with no observers may be mutated at any computation depth and
under any combination of the strict-mode and allow-state-changes flags: the
guard never raises for it. -/
theorem C10_unobserved_never_fails (s : MobxState) (atom : Nat)
    (h : (s.nodes atom).observers = []) :
    checkIfStateModificationsAreAllowed s atom = Except.ok () := by
  rw [checkIfStateModificationsAreAllowed,
    if_neg (fun hc => by rw [h] at hc; cases hc.2),
    if_neg (fun hc => by rw [h] at hc; cases hc.2)]

/-- C10 witness: in `stGuard` (depth 1) cell 1 has no observers, and the
guard passes even with state changes disallowed and strict mode on. -/
theorem C10_witness :
    ({ stGuard with allowStateChanges := false, strictMode := true }.nodes 1).observers = [] ∧
    checkIfStateModificationsAreAllowed
      { stGuard with allowStateChanges := false, strictMode := true } 1 = Except.ok () :=
  ⟨by decide, C10_unobserved_never_fails _ 1 (by decide)⟩

/-! ## C4: untracked -/

/-- C4 (counterexample): the claim says the previous tracking derivation is
restored even when the thunk raises.  `untracked` has no try/finally: in
`stUntracked` the tracking derivation is 0, the thunk `fRaise` raises, and
after `untracked fRaise` the tracking derivation is null, not 0, when the
failure reaches the caller. -/
theorem C4_counterexample :
    stUntracked.trackingDerivation = some 0 ∧
    (untracked fRaise stUntracked).2 = Except.error () ∧
    (untracked fRaise stUntracked).1.trackingDerivation ≠ some 0 := by
  refine ⟨rfl, rfl, by decide⟩

/-- C4 (amended): when the thunk returns normally, `untracked` restores the
previous tracking derivation; when the thunk raises, the failure propagates
with the state exactly as the thunk left it — since the thunk runs after
`untrackedStart`, the tracking derivation seen by the caller of a raising
`untracked` is whatever the thunk left installed (null unless the thunk
itself changed it), not the saved previous derivation. -/
theorem C4_untracked_restore {ε α : Type} (f : MobxState → MobxState × Except ε α)
    (s : MobxState) :
    (∀ s1 v, f { s with trackingDerivation := none } = (s1, Except.ok v) →
      untracked f s = ({ s1 with trackingDerivation := s.trackingDerivation }, Except.ok v)) ∧
    (∀ s1 e, f { s with trackingDerivation := none } = (s1, Except.error e) →
      untracked f s = (s1, Except.error e)) := by
  constructor
  · intro s1 v h
    simp only [untracked, untrackedStart, untrackedEnd, h]
  · intro s1 e h
    simp only [untracked, untrackedStart, untrackedEnd, h]

/-! ## The dependency scan of shouldCompute -/

theorem untrackedEnd_nodes (s : MobxState) (p : Option Nat) (c : Nat) :
    (untrackedEnd s p).nodes c = s.nodes c := rfl

theorem scanObs_nil (comp : Nat → Bool) (get : Nat → MobxState → MobxState × Bool)
    (d : Nat) (s : MobxState) :
    scanObs comp get d [] s = (ScanOutcome.completed s, []) := rfl

theorem scanObs_cons (comp : Nat → Bool) (get : Nat → MobxState → MobxState × Bool)
    (d o : Nat) (rest : List Nat) (s : MobxState) :
    scanObs comp get d (o :: rest) s =
      if comp o then
        if (get o s).2 then (ScanOutcome.stopped (get o s).1, [o])
        else if ((get o s).1.nodes d).dependenciesState = some IDerivationState.STALE then
          (ScanOutcome.stopped (get o s).1, [o])
        else
          ((scanObs comp get d rest (get o s).1).1,
            o :: (scanObs comp get d rest (get o s).1).2)
      else scanObs comp get d rest s := rfl

theorem scanObs_append (comp : Nat → Bool) (get : Nat → MobxState → MobxState × Bool)
    (d : Nat) (l1 l2 : List Nat) (s : MobxState) :
    scanObs comp get d (l1 ++ l2) s =
      match scanObs comp get d l1 s with
      | (ScanOutcome.stopped s1, t1) => (ScanOutcome.stopped s1, t1)
      | (ScanOutcome.completed s1, t1) =>
          ((scanObs comp get d l2 s1).1, t1 ++ (scanObs comp get d l2 s1).2) := by
  induction l1 generalizing s with
  | nil => simp [scanObs_nil]
  | cons o rest ih =>
      rw [List.cons_append, scanObs_cons, scanObs_cons]
      by_cases hc : comp o
      · simp only [hc, if_true]
        by_cases hg : (get o s).2
        · simp [hg]
        · simp only [hg, Bool.false_eq_true, if_false]
          by_cases hst :
              (((get o s).1).nodes d).dependenciesState = some IDerivationState.STALE
          · simp [hst]
          · simp only [hst, if_false]
            rw [ih]
            rcases hscan : scanObs comp get d rest (get o s).1 with ⟨out, tr⟩
            cases out <;> simp
      · simp only [hc, Bool.false_eq_true, if_false]
        exact ih s

theorem scanObs_trace (comp : Nat → Bool) (get : Nat → MobxState → MobxState × Bool)
    (d : Nat) (l : List Nat) (s : MobxState) :
    ∃ k, k ≤ l.length ∧ (scanObs comp get d l s).2 = (l.take k).filter comp ∧
      (∀ s1, (scanObs comp get d l s).1 = ScanOutcome.completed s1 → k = l.length) := by
  induction l generalizing s with
  | nil => exact ⟨0, by simp [scanObs_nil]⟩
  | cons o rest ih =>
      by_cases hc : comp o
      · by_cases hg : (get o s).2
        · refine ⟨1, by simp, by simp [scanObs_cons, hc, hg], ?_⟩
          intro s1 h1
          rw [scanObs_cons] at h1
          simp only [hc, if_true, hg, if_true] at h1
          cases h1
        · by_cases hst :
              (((get o s).1).nodes d).dependenciesState = some IDerivationState.STALE
          · refine ⟨1, by simp, by simp [scanObs_cons, hc, hg, hst], ?_⟩
            intro s1 h1
            rw [scanObs_cons] at h1
            simp only [hc, if_true, hg, Bool.false_eq_true, if_false, hst, if_true] at h1
            cases h1
          · rcases ih ((get o s).1) with ⟨k, hk, htr, hcmp⟩
            refine ⟨k + 1, by simpa using hk,
              by simp [scanObs_cons, hc, hg, hst, htr], ?_⟩
            intro s1 h1
            rw [scanObs_cons] at h1
            simp only [hc, if_true, hg, Bool.false_eq_true, if_false, hst] at h1
            have := hcmp s1 h1
            simp [this]
      · rcases ih s with ⟨k, hk, htr, hcmp⟩
        refine ⟨k + 1, by simpa using hk, by simp [scanObs_cons, hc, htr], ?_⟩
        intro s1 h1
        rw [scanObs_cons] at h1
        simp only [hc, Bool.false_eq_true, if_false] at h1
        have := hcmp s1 h1
        simp [this]

theorem changeDeps0_self (s : MobxState) (d : Nat) :
    ((changeDependenciesStateTo0 s d).nodes d).dependenciesState =
      some IDerivationState.UP_TO_DATE := by
  rcases changeDeps0_dependenciesState s d with h | ⟨h1, h2⟩
  · exact h
  · rw [h1, h2]

theorem shouldCompute_possiblyStale (comp : Nat → Bool)
    (get : Nat → MobxState → MobxState × Bool) (d : Nat) (s : MobxState)
    (h : (s.nodes d).dependenciesState = some IDerivationState.POSSIBLY_STALE) :
    shouldCompute comp get d s =
      match scanObs comp get d ((s.nodes d).observing) { s with trackingDerivation := none } with
      | (ScanOutcome.stopped s1, tr) =>
          ({ s1 with trackingDerivation := s.trackingDerivation }, true, tr)
      | (ScanOutcome.completed s1, tr) =>
          ({ changeDependenciesStateTo0 s1 d with
              trackingDerivation := s.trackingDerivation }, false, tr) := by
  rw [shouldCompute, h]
  simp only [untrackedStart, untrackedEnd]

/-! ## C2: shouldCompute on a POSSIBLY_STALE derivation -/

/-- C2: when the derivation is POSSIBLY_STALE, the scan walks the dependency
list of the last run in order, forcing exactly the computed cells of some
prefix (first conjunct); if it returns false the whole list was scanned and
the derivation is demoted to UP_TO_DATE (second conjunct); whenever the
scan of a prefix completes without stopping and forcing the next computed
cell raises or leaves this derivation STALE, the call returns true having
forced nothing past that cell (third conjunct); and whenever the scan of the
whole dependency list completes — it never observed STALE and nothing raised,
for that is the only way the loop runs off the end — the derivation is
demoted to UP_TO_DATE and false is returned (fourth conjunct). -/
theorem C2_shouldCompute_scan (comp : Nat → Bool)
    (get : Nat → MobxState → MobxState × Bool) (d : Nat) (s : MobxState)
    (h : (s.nodes d).dependenciesState = some IDerivationState.POSSIBLY_STALE) :
    (∃ k, k ≤ ((s.nodes d).observing).length ∧
      (shouldCompute comp get d s).2.2 = (((s.nodes d).observing).take k).filter comp) ∧
    ((shouldCompute comp get d s).2.1 = false →
      (shouldCompute comp get d s).2.2 = ((s.nodes d).observing).filter comp ∧
      (((shouldCompute comp get d s).1).nodes d).dependenciesState =
        some IDerivationState.UP_TO_DATE) ∧
    (∀ pre c post s1 tr, (s.nodes d).observing = pre ++ c :: post → comp c = true →
      scanObs comp get d pre { s with trackingDerivation := none } =
        (ScanOutcome.completed s1, tr) →
      ((get c s1).2 = true ∨
        (((get c s1).1).nodes d).dependenciesState = some IDerivationState.STALE) →
      (shouldCompute comp get d s).2.1 = true ∧
      (shouldCompute comp get d s).2.2 = tr ++ [c]) ∧
    (∀ s1 tr, scanObs comp get d ((s.nodes d).observing)
        { s with trackingDerivation := none } = (ScanOutcome.completed s1, tr) →
      (shouldCompute comp get d s).2.1 = false ∧
      (((shouldCompute comp get d s).1).nodes d).dependenciesState =
        some IDerivationState.UP_TO_DATE ∧
      (shouldCompute comp get d s).2.2 = tr) := by
  refine ⟨?_, ?_, ?_, ?_⟩
  · rw [shouldCompute_possiblyStale comp get d s h]
    rcases scanObs_trace comp get d ((s.nodes d).observing)
        { s with trackingDerivation := none } with ⟨k, hk, htr, _⟩
    rcases hscan : scanObs comp get d ((s.nodes d).observing)
        { s with trackingDerivation := none } with ⟨out, tr0⟩
    rw [hscan] at htr
    exact ⟨k, hk, by cases out <;> simpa using htr⟩
  · rw [shouldCompute_possiblyStale comp get d s h]
    intro hfalse
    rcases scanObs_trace comp get d ((s.nodes d).observing)
        { s with trackingDerivation := none } with ⟨k, _, htr, hcmp⟩
    rcases hscan : scanObs comp get d ((s.nodes d).observing)
        { s with trackingDerivation := none } with ⟨out, tr0⟩
    rw [hscan] at htr hcmp hfalse
    cases out with
    | stopped s1 => simp at hfalse
    | completed s1 =>
        have hk := hcmp s1 rfl
        subst hk
        rw [List.take_length] at htr
        refine ⟨by simpa using htr, ?_⟩
        simpa using changeDeps0_self s1 d
  · intro pre c post s1 tr hobs hc hpre hstop
    have hcons : scanObs comp get d (c :: post) s1 =
        (ScanOutcome.stopped (get c s1).1, [c]) := by
      rw [scanObs_cons]
      simp only [hc, if_true]
      rcases hstop with hthrow | hstale
      · simp [hthrow]
      · by_cases hg : (get c s1).2
        · simp [hg]
        · simp [hg, hstale]
    have hstop2 : scanObs comp get d ((s.nodes d).observing)
        { s with trackingDerivation := none } =
        (ScanOutcome.stopped (get c s1).1, tr ++ [c]) := by
      rw [hobs, scanObs_append, hpre]
      dsimp only
      rw [hcons]
    rw [shouldCompute_possiblyStale comp get d s h, hstop2]
    exact ⟨rfl, rfl⟩
  · intro s1 tr hscan
    rw [shouldCompute_possiblyStale comp get d s h, hscan]
    exact ⟨rfl, by simpa using changeDeps0_self s1 d, rfl⟩

/-- C2 witness: in `stScan`, derivation 0 is POSSIBLY_STALE over [1, 2];
with `getStale`, forcing cell 1 flips 0 to STALE, so the scan short-circuits
before cell 2. -/
theorem C2_witness :
    (stScan.nodes 0).dependenciesState = some IDerivationState.POSSIBLY_STALE ∧
    ((∃ k, k ≤ ((stScan.nodes 0).observing).length ∧
      (shouldCompute compScan getStale 0 stScan).2.2 =
        (((stScan.nodes 0).observing).take k).filter compScan) ∧
    ((shouldCompute compScan getStale 0 stScan).2.1 = false →
      (shouldCompute compScan getStale 0 stScan).2.2 =
        ((stScan.nodes 0).observing).filter compScan ∧
      (((shouldCompute compScan getStale 0 stScan).1).nodes 0).dependenciesState =
        some IDerivationState.UP_TO_DATE) ∧
    (∀ pre c post s1 tr, (stScan.nodes 0).observing = pre ++ c :: post →
      compScan c = true →
      scanObs compScan getStale 0 pre { stScan with trackingDerivation := none } =
        (ScanOutcome.completed s1, tr) →
      ((getStale c s1).2 = true ∨
        (((getStale c s1).1).nodes 0).dependenciesState = some IDerivationState.STALE) →
      (shouldCompute compScan getStale 0 stScan).2.1 = true ∧
      (shouldCompute compScan getStale 0 stScan).2.2 = tr ++ [c]) ∧
    (∀ s1 tr, scanObs compScan getStale 0 ((stScan.nodes 0).observing)
        { stScan with trackingDerivation := none } = (ScanOutcome.completed s1, tr) →
      (shouldCompute compScan getStale 0 stScan).2.1 = false ∧
      (((shouldCompute compScan getStale 0 stScan).1).nodes 0).dependenciesState =
        some IDerivationState.UP_TO_DATE ∧
      (shouldCompute compScan getStale 0 stScan).2.2 = tr)) :=
  ⟨rfl, C2_shouldCompute_scan compScan getStale 0 stScan rfl⟩

/-! ## C8: a dependency failure during the staleness scan -/

/-- C8: if, after the scan of a prefix of the dependency list completed
without stopping, forcing the next computed-cell dependency raises, then
`shouldCompute` returns true immediately: the result is exactly the
post-failure state with the tracking derivation restored (so the failure is
consumed by the catch, not propagated — the embedding of the scan has no
failure channel at all), the forced list stops at the failing cell, and the
derivation keeps the dependenciesState it had right after the failing call
(it is not demoted to UP_TO_DATE, since `changeDependenciesStateTo0` only
runs on the scan-completed path). -/
theorem C8_dependency_failure (comp : Nat → Bool)
    (get : Nat → MobxState → MobxState × Bool) (d : Nat) (s : MobxState)
    (pre : List Nat) (c : Nat) (post : List Nat) (s1 : MobxState) (tr : List Nat)
    (h : (s.nodes d).dependenciesState = some IDerivationState.POSSIBLY_STALE)
    (hobs : (s.nodes d).observing = pre ++ c :: post)
    (hc : comp c = true)
    (hpre : scanObs comp get d pre { s with trackingDerivation := none } =
      (ScanOutcome.completed s1, tr))
    (hthrow : (get c s1).2 = true) :
    shouldCompute comp get d s =
      ({ (get c s1).1 with trackingDerivation := s.trackingDerivation },
        true, tr ++ [c]) ∧
    (((shouldCompute comp get d s).1).nodes d).dependenciesState =
      (((get c s1).1).nodes d).dependenciesState := by
  have hcons : scanObs comp get d (c :: post) s1 =
      (ScanOutcome.stopped (get c s1).1, [c]) := by
    rw [scanObs_cons]
    simp [hc, hthrow]
  have hmain : shouldCompute comp get d s =
      ({ (get c s1).1 with trackingDerivation := s.trackingDerivation },
        true, tr ++ [c]) := by
    rw [shouldCompute_possiblyStale comp get d s h, hobs, scanObs_append, hpre]
    dsimp only
    rw [hcons]
  exact ⟨hmain, by rw [hmain]⟩

/-- C8 witness: in `stScan` with `getThrow`, forcing cell 1 raises at once
(empty completed prefix), so shouldCompute returns true with only cell 1
forced and derivation 0 still POSSIBLY_STALE. -/
theorem C8_witness :
    shouldCompute compScan getThrow 0 stScan =
      ({ (getThrow 1 { stScan with trackingDerivation := none }).1 with
          trackingDerivation := stScan.trackingDerivation }, true, [] ++ [1]) ∧
    (((shouldCompute compScan getThrow 0 stScan).1).nodes 0).dependenciesState =
      (((getThrow 1 { stScan with trackingDerivation := none }).1).nodes 0).dependenciesState :=
  C8_dependency_failure compScan getThrow 0 stScan [] 1 [2]
    { stScan with trackingDerivation := none } [] rfl rfl rfl rfl rfl

/-- C4 witness: the amended theorem applied to `fRaise` and `stUntracked`. -/
theorem C4_witness :
    (∀ s1 v, fRaise { stUntracked with trackingDerivation := none } = (s1, Except.ok v) →
      untracked fRaise stUntracked =
        ({ s1 with trackingDerivation := stUntracked.trackingDerivation }, Except.ok v)) ∧
    (∀ s1 e, fRaise { stUntracked with trackingDerivation := none } = (s1, Except.error e) →
      untracked fRaise stUntracked = (s1, Except.error e)) :=
  C4_untracked_restore fRaise stUntracked

/-! ## keptOf: ordered first-occurrence deduplication -/

theorem keptOf_congr (f g : Nat → Bool) (l : List Nat) (h : ∀ x, f x = g x) :
    keptOf f l = keptOf g l := by
  induction l generalizing f g with
  | nil => rfl
  | cons a rest ih =>
      rw [keptOf, keptOf, h a]
      by_cases ha : g a = true
      · simp only [ha, if_true]
        exact ih f g h
      · simp only [ha, if_false, Bool.false_eq_true]
        rw [ih (fun x => x == a || f x) (fun x => x == a || g x)
          (fun x => by dsimp only; rw [h x])]

theorem keptOf_mem (f : Nat → Bool) (l : List Nat) (c : Nat) :
    c ∈ keptOf f l ↔ c ∈ l ∧ f c = false := by
  induction l generalizing f with
  | nil => simp [keptOf]
  | cons a rest ih =>
      rw [keptOf]
      by_cases ha : f a = true
      · simp only [ha, if_true, ih]
        constructor
        · rintro ⟨h1, h2⟩
          exact ⟨List.mem_cons_of_mem _ h1, h2⟩
        · rintro ⟨h1, h2⟩
          rcases List.mem_cons.1 h1 with rfl | h1
          · simp [h2] at ha
          · exact ⟨h1, h2⟩
      · rw [Bool.not_eq_true] at ha
        simp only [ha, Bool.false_eq_true, if_false, List.mem_cons, ih]
        by_cases hca : c = a
        · subst hca
          simp [ha]
        · simp [hca, Bool.or_eq_false_iff]

theorem keptOf_nodup (f : Nat → Bool) (l : List Nat) : (keptOf f l).Nodup := by
  induction l generalizing f with
  | nil => exact List.nodup_nil
  | cons a rest ih =>
      rw [keptOf]
      by_cases ha : f a = true
      · simp only [ha, if_true]
        exact ih f
      · simp only [ha, if_false, Bool.false_eq_true]
        refine List.nodup_cons.2 ⟨?_, ih _⟩
        rw [keptOf_mem]
        rintro ⟨-, hf⟩
        simp at hf

/-! ## bindPass1: dedup and running maximum -/

theorem bindPass1_cons_keep (c : Nat) (rest : List Nat) (s : MobxState)
    (low : IDerivationState) (h : (s.nodes c).diffValue = 0) :
    bindPass1 (c :: rest) s low =
      ((bindPass1 rest (updNode s c (fun n => { n with diffValue := 1 }))
          (maxStateOpt low (((updNode s c (fun n => { n with diffValue := 1 })).nodes c).dependenciesState))).1,
        c :: (bindPass1 rest (updNode s c (fun n => { n with diffValue := 1 }))
          (maxStateOpt low (((updNode s c (fun n => { n with diffValue := 1 })).nodes c).dependenciesState))).2.1,
        (bindPass1 rest (updNode s c (fun n => { n with diffValue := 1 }))
          (maxStateOpt low (((updNode s c (fun n => { n with diffValue := 1 })).nodes c).dependenciesState))).2.2) := by
  rw [bindPass1]
  simp [h]

theorem bindPass1_cons_skip (c : Nat) (rest : List Nat) (s : MobxState)
    (low : IDerivationState) (h : ¬ (s.nodes c).diffValue = 0) :
    bindPass1 (c :: rest) s low =
      bindPass1 rest s (maxStateOpt low ((s.nodes c).dependenciesState)) := by
  rw [bindPass1]
  simp [h]

theorem bindPass1_nodes (l : List Nat) (s : MobxState) (low : IDerivationState) (c : Nat) :
    ((bindPass1 l s low).1.nodes c) =
      if c ∈ l ∧ (s.nodes c).diffValue = 0
      then { s.nodes c with diffValue := 1 }
      else s.nodes c := by
  induction l generalizing s low with
  | nil => simp [bindPass1]
  | cons a rest ih =>
      by_cases ha : (s.nodes a).diffValue = 0
      · rw [bindPass1_cons_keep a rest s low ha]
        dsimp only
        rw [ih]
        by_cases hca : c = a
        · subst hca
          rw [updNode_nodes_self]
          simp [ha]
        · rw [updNode_nodes_ne _ _ _ hca]
          simp [List.mem_cons, hca]
      · rw [bindPass1_cons_skip a rest s low ha, ih]
        by_cases hca : c = a
        · subst hca
          simp [ha]
        · simp [List.mem_cons, hca]

theorem bindPass1_kept (l : List Nat) (s : MobxState) (low : IDerivationState) :
    (bindPass1 l s low).2.1 = keptOf (fun c => (s.nodes c).diffValue != 0) l := by
  induction l generalizing s low with
  | nil => simp [bindPass1, keptOf]
  | cons a rest ih =>
      rw [keptOf]
      by_cases ha : (s.nodes a).diffValue = 0
      · rw [bindPass1_cons_keep a rest s low ha]
        dsimp only
        have hmark : ((s.nodes a).diffValue != 0) = false := by simp [ha]
        simp only [hmark, Bool.false_eq_true, if_false]
        rw [ih]
        congr 1
        apply keptOf_congr
        intro x
        by_cases hxa : x = a
        · subst hxa
          rw [updNode_nodes_self]
          simp
        · rw [updNode_nodes_ne _ _ _ hxa]
          simp [hxa]
      · rw [bindPass1_cons_skip a rest s low ha, ih]
        have hmark : ((s.nodes a).diffValue != 0) = true := by simp [ha]
        simp only [hmark, if_true]

theorem foldl_maxStateOpt_congr (l : List Nat) (f g : Nat → Option IDerivationState)
    (low : IDerivationState) (h : ∀ c ∈ l, f c = g c) :
    l.foldl (fun acc c => maxStateOpt acc (f c)) low =
      l.foldl (fun acc c => maxStateOpt acc (g c)) low := by
  induction l generalizing low with
  | nil => rfl
  | cons a rest ih =>
      simp only [List.foldl_cons]
      rw [h a (List.mem_cons_self a rest)]
      exact ih _ (fun c hc => h c (List.mem_cons_of_mem _ hc))

theorem bindPass1_low (l : List Nat) (s : MobxState) (low : IDerivationState) :
    (bindPass1 l s low).2.2 =
      l.foldl (fun acc c => maxStateOpt acc ((s.nodes c).dependenciesState)) low := by
  induction l generalizing s low with
  | nil => simp [bindPass1]
  | cons a rest ih =>
      simp only [List.foldl_cons]
      by_cases ha : (s.nodes a).diffValue = 0
      · rw [bindPass1_cons_keep a rest s low ha]
        dsimp only
        rw [ih]
        rw [updNode_nodes_self]
        have hfold : rest.foldl
            (fun acc c => maxStateOpt acc
              (((updNode s a (fun n => { n with diffValue := 1 })).nodes c).dependenciesState))
            (maxStateOpt low ({ s.nodes a with diffValue := 1 }).dependenciesState) =
            rest.foldl (fun acc c => maxStateOpt acc ((s.nodes c).dependenciesState))
            (maxStateOpt low ({ s.nodes a with diffValue := 1 }).dependenciesState) := by
          apply foldl_maxStateOpt_congr
          intro c hc
          by_cases hca : c = a
          · subst hca
            rw [updNode_nodes_self]
          · rw [updNode_nodes_ne _ _ _ hca]
        rw [hfold]
      · rw [bindPass1_cons_skip a rest s low ha, ih]

/-! ## bindPass2 and bindPass3 -/

theorem bindPass2_step_ne (d a : Nat) (s : MobxState) {c : Nat} (hca : c ≠ a) :
    ((updNode (if (s.nodes a).diffValue = 0 then removeObserver s a d else s) a
        (fun n => { n with diffValue := 0 })).nodes c) = s.nodes c := by
  rw [updNode_nodes_ne _ _ _ hca]
  by_cases hz : (s.nodes a).diffValue = 0
  · rw [if_pos hz, removeObserver, updNode_nodes_ne _ _ _ hca]
  · rw [if_neg hz]

theorem bindPass2_step_self (d a : Nat) (s : MobxState) :
    ((updNode (if (s.nodes a).diffValue = 0 then removeObserver s a d else s) a
        (fun n => { n with diffValue := 0 })).nodes a) =
      if (s.nodes a).diffValue = 0
      then { s.nodes a with
             observers := (s.nodes a).observers.filter (fun x => x != d), diffValue := 0 }
      else { s.nodes a with diffValue := 0 } := by
  rw [updNode_nodes_self]
  by_cases hz : (s.nodes a).diffValue = 0
  · rw [if_pos hz, if_pos hz, removeObserver, updNode_nodes_self]
  · rw [if_neg hz, if_neg hz]

theorem bindPass2_observers_diff (d : Nat) (l : List Nat) (s : MobxState)
    (hl : l.Nodup) (c : Nat) :
    ((bindPass2 d l s).nodes c).observers =
      (if c ∈ l ∧ (s.nodes c).diffValue = 0
       then (s.nodes c).observers.filter (fun x => x != d)
       else (s.nodes c).observers) ∧
    ((bindPass2 d l s).nodes c).diffValue = (if c ∈ l then 0 else (s.nodes c).diffValue) := by
  induction l generalizing s with
  | nil => simp [bindPass2]
  | cons a rest ih =>
      have hna : a ∉ rest := (List.nodup_cons.1 hl).1
      have hrest : rest.Nodup := (List.nodup_cons.1 hl).2
      rw [bindPass2]
      by_cases hca : c = a
      · subst hca
        rcases ih _ hrest with ⟨iho, ihd⟩
        rw [iho, ihd, bindPass2_step_self]
        by_cases hz : (s.nodes c).diffValue = 0
        · simp [hz, hna]
        · simp [hz, hna]
      · rcases ih _ hrest with ⟨iho, ihd⟩
        rw [iho, ihd]
        simp only [bindPass2_step_ne d a s hca]
        simp [List.mem_cons, hca]

theorem bindPass2_preserves (d : Nat) (l : List Nat) (s : MobxState) (c : Nat) :
    ((bindPass2 d l s).nodes c).observing = (s.nodes c).observing ∧
    ((bindPass2 d l s).nodes c).dependenciesState = (s.nodes c).dependenciesState ∧
    ((bindPass2 d l s).nodes c).staleCount = (s.nodes c).staleCount := by
  induction l generalizing s with
  | nil => exact ⟨rfl, rfl, rfl⟩
  | cons a rest ih =>
      rw [bindPass2]
      rcases ih (updNode (if (s.nodes a).diffValue = 0 then removeObserver s a d else s) a
        (fun n => { n with diffValue := 0 })) with ⟨ih1, ih2, ih3⟩
      rw [ih1, ih2, ih3]
      by_cases hca : c = a
      · subst hca
        rw [bindPass2_step_self]
        by_cases hz : (s.nodes c).diffValue = 0 <;> simp [hz]
      · rw [bindPass2_step_ne d a s hca]
        exact ⟨rfl, rfl, rfl⟩

theorem bindPass3_step_ne (d a : Nat) (s : MobxState) {c : Nat} (hca : c ≠ a) :
    ((if (s.nodes a).diffValue = 1 then
        addObserver (updNode s a (fun n => { n with diffValue := 0 })) a d
      else s).nodes c) = s.nodes c := by
  by_cases hz : (s.nodes a).diffValue = 1
  · rw [if_pos hz, addObserver, updNode_updNode_same, updNode_nodes_ne _ _ _ hca]
  · rw [if_neg hz]

theorem bindPass3_step_self (d a : Nat) (s : MobxState) :
    ((if (s.nodes a).diffValue = 1 then
        addObserver (updNode s a (fun n => { n with diffValue := 0 })) a d
      else s).nodes a) =
      if (s.nodes a).diffValue = 1
      then { s.nodes a with diffValue := 0, observers := (s.nodes a).observers ++ [d] }
      else s.nodes a := by
  by_cases hz : (s.nodes a).diffValue = 1
  · rw [if_pos hz, if_pos hz, addObserver, updNode_updNode_same, updNode_nodes_self]
  · rw [if_neg hz, if_neg hz]

theorem bindPass3_observers_diff (d : Nat) (l : List Nat) (s : MobxState)
    (hl : l.Nodup) (c : Nat) :
    ((bindPass3 d l s).nodes c).observers =
      (if c ∈ l ∧ (s.nodes c).diffValue = 1
       then (s.nodes c).observers ++ [d]
       else (s.nodes c).observers) ∧
    ((bindPass3 d l s).nodes c).diffValue =
      (if c ∈ l ∧ (s.nodes c).diffValue = 1 then 0 else (s.nodes c).diffValue) := by
  induction l generalizing s with
  | nil => simp [bindPass3]
  | cons a rest ih =>
      have hna : a ∉ rest := (List.nodup_cons.1 hl).1
      have hrest : rest.Nodup := (List.nodup_cons.1 hl).2
      rw [bindPass3]
      by_cases hca : c = a
      · subst hca
        rcases ih _ hrest with ⟨iho, ihd⟩
        rw [iho, ihd, bindPass3_step_self]
        by_cases hz : (s.nodes c).diffValue = 1
        · simp [hz, hna]
        · simp [hz, hna]
      · rcases ih _ hrest with ⟨iho, ihd⟩
        rw [iho, ihd]
        simp only [bindPass3_step_ne d a s hca]
        simp [List.mem_cons, hca]

theorem bindPass3_preserves (d : Nat) (l : List Nat) (s : MobxState) (c : Nat) :
    ((bindPass3 d l s).nodes c).observing = (s.nodes c).observing ∧
    ((bindPass3 d l s).nodes c).dependenciesState = (s.nodes c).dependenciesState ∧
    ((bindPass3 d l s).nodes c).staleCount = (s.nodes c).staleCount := by
  induction l generalizing s with
  | nil => exact ⟨rfl, rfl, rfl⟩
  | cons a rest ih =>
      rw [bindPass3]
      rcases ih (if (s.nodes a).diffValue = 1 then
          addObserver (updNode s a (fun n => { n with diffValue := 0 })) a d
        else s) with ⟨ih1, ih2, ih3⟩
      rw [ih1, ih2, ih3]
      by_cases hca : c = a
      · subst hca
        rw [bindPass3_step_self]
        by_cases hz : (s.nodes c).diffValue = 1 <;> simp [hz]
      · rw [bindPass3_step_ne d a s hca]
        exact ⟨rfl, rfl, rfl⟩

/-! ## bindDiff: the assembled diff pipeline -/

theorem bindDiff_final (s4 : MobxState) (d : Nat) (low : IDerivationState) (c : Nat) :
    (((if low = IDerivationState.UP_TO_DATE then s4
       else updNode (updNode s4 d (fun n => { n with dependenciesState := some low })) d
         (fun n => { n with staleCount := n.staleCount + 1 })).nodes c).observers =
      (s4.nodes c).observers) ∧
    (((if low = IDerivationState.UP_TO_DATE then s4
       else updNode (updNode s4 d (fun n => { n with dependenciesState := some low })) d
         (fun n => { n with staleCount := n.staleCount + 1 })).nodes c).diffValue =
      (s4.nodes c).diffValue) ∧
    (((if low = IDerivationState.UP_TO_DATE then s4
       else updNode (updNode s4 d (fun n => { n with dependenciesState := some low })) d
         (fun n => { n with staleCount := n.staleCount + 1 })).nodes c).observing =
      (s4.nodes c).observing) := by
  by_cases hl : low = IDerivationState.UP_TO_DATE
  · rw [if_pos hl]
    exact ⟨rfl, rfl, rfl⟩
  · rw [if_neg hl, updNode_updNode_same]
    by_cases hc : c = d
    · subst hc
      rw [updNode_nodes_self]
      exact ⟨rfl, rfl, rfl⟩
    · rw [updNode_nodes_ne _ _ _ hc]
      exact ⟨rfl, rfl, rfl⟩

theorem bindDiff_spec (s : MobxState) (d : Nat) (prev pend : List Nat)
    (hdiff : ∀ c, (s.nodes c).diffValue = 0) (hprev : prev.Nodup) :
    ((bindDiff s d prev pend).nodes d).observing = dedupFirst pend ∧
    (∀ c, ((bindDiff s d prev pend).nodes c).observers =
      (if c ∈ prev ∧ c ∉ pend then (s.nodes c).observers.filter (fun x => x != d)
       else if c ∈ pend ∧ c ∉ prev then (s.nodes c).observers ++ [d]
       else (s.nodes c).observers)) ∧
    (∀ c, ((bindDiff s d prev pend).nodes c).diffValue = 0) := by
  set p1 := bindPass1 pend s IDerivationState.UP_TO_DATE with hp1def
  set s2 := updNode p1.1 d (fun n => { n with observing := p1.2.1 }) with hs2def
  set s3 := bindPass2 d prev.reverse s2 with hs3def
  set s4 := bindPass3 d p1.2.1.reverse s3 with hs4def
  have hunfold : bindDiff s d prev pend =
      if p1.2.2 = IDerivationState.UP_TO_DATE then s4
      else updNode (updNode s4 d (fun n => { n with dependenciesState := some p1.2.2 })) d
        (fun n => { n with staleCount := n.staleCount + 1 }) := rfl
  have hkept : p1.2.1 = dedupFirst pend := by
    rw [hp1def, bindPass1_kept, dedupFirst]
    exact keptOf_congr _ _ pend (fun x => by simp [hdiff x])
  have hkmem : ∀ c, (c ∈ p1.2.1) ↔ c ∈ pend := by
    intro c
    rw [hkept, dedupFirst, keptOf_mem]
    simp
  have hknodup : (p1.2.1).Nodup := by
    rw [hkept, dedupFirst]
    exact keptOf_nodup _ _
  have hs1 : ∀ c, (p1.1.nodes c) =
      if c ∈ pend then { s.nodes c with diffValue := 1 } else s.nodes c := by
    intro c
    rw [hp1def, bindPass1_nodes]
    simp [hdiff c]
  have hs2obs : ∀ c, ((s2.nodes c).observers) = (s.nodes c).observers := by
    intro c
    by_cases hc : c = d
    · subst hc
      rw [hs2def, updNode_nodes_self]
      show (p1.1.nodes c).observers = _
      rw [hs1 c]
      by_cases hm : c ∈ pend <;> simp [hm]
    · rw [hs2def, updNode_nodes_ne _ _ _ hc, hs1 c]
      by_cases hm : c ∈ pend <;> simp [hm]
  have hs2diff : ∀ c, ((s2.nodes c).diffValue) = if c ∈ pend then 1 else 0 := by
    intro c
    by_cases hc : c = d
    · subst hc
      rw [hs2def, updNode_nodes_self]
      show (p1.1.nodes c).diffValue = _
      rw [hs1 c]
      by_cases hm : c ∈ pend <;> simp [hm, hdiff c]
    · rw [hs2def, updNode_nodes_ne _ _ _ hc, hs1 c]
      by_cases hm : c ∈ pend <;> simp [hm, hdiff c]
  have h3 : ∀ c,
      ((s3.nodes c).observers =
        (if c ∈ prev ∧ c ∉ pend then (s.nodes c).observers.filter (fun x => x != d)
         else (s.nodes c).observers)) ∧
      ((s3.nodes c).diffValue = (if c ∈ prev then 0 else if c ∈ pend then 1 else 0)) := by
    intro c
    rcases bindPass2_observers_diff d prev.reverse s2 (List.nodup_reverse.2 hprev) c
      with ⟨ho, hd2⟩
    rw [← hs3def] at ho hd2
    rw [hs2obs c] at ho
    rw [hs2diff c] at ho hd2
    rw [ho, hd2]
    by_cases hcp : c ∈ prev <;> by_cases hcn : c ∈ pend <;>
      simp [List.mem_reverse, hcp, hcn]
  have h4 : ∀ c,
      ((s4.nodes c).observers =
        (if c ∈ prev ∧ c ∉ pend then (s.nodes c).observers.filter (fun x => x != d)
         else if c ∈ pend ∧ c ∉ prev then (s.nodes c).observers ++ [d]
         else (s.nodes c).observers)) ∧
      ((s4.nodes c).diffValue = 0) := by
    intro c
    rcases bindPass3_observers_diff d p1.2.1.reverse s3 (List.nodup_reverse.2 hknodup) c
      with ⟨ho, hd3⟩
    rw [← hs4def] at ho hd3
    rcases h3 c with ⟨h3o, h3d⟩
    rw [h3o] at ho
    rw [h3d] at ho hd3
    rw [ho, hd3]
    have hkm : (c ∈ p1.2.1.reverse) ↔ c ∈ pend := by
      rw [List.mem_reverse]
      exact hkmem c
    by_cases hcp : c ∈ prev <;> by_cases hcn : c ∈ pend <;>
      simp [hkm, hcp, hcn]
  have hobserving : ((bindDiff s d prev pend).nodes d).observing = dedupFirst pend := by
    rw [hunfold, (bindDiff_final s4 d p1.2.2 d).2.2]
    have h43 : (s4.nodes d).observing = (s3.nodes d).observing := by
      rw [hs4def]
      exact (bindPass3_preserves d p1.2.1.reverse s3 d).1
    have h32 : (s3.nodes d).observing = (s2.nodes d).observing := by
      rw [hs3def]
      exact (bindPass2_preserves d prev.reverse s2 d).1
    rw [h43, h32, hs2def, updNode_nodes_self]
    show p1.2.1 = dedupFirst pend
    exact hkept
  refine ⟨hobserving, ?_, ?_⟩
  · intro c
    rw [hunfold, (bindDiff_final s4 d p1.2.2 c).1]
    exact (h4 c).1
  · intro c
    rw [hunfold, (bindDiff_final s4 d p1.2.2 c).2.1]
    exact (h4 c).2

theorem bindPass1_preserves (l : List Nat) (s : MobxState) (low : IDerivationState) (c : Nat) :
    ((bindPass1 l s low).1.nodes c).dependenciesState = (s.nodes c).dependenciesState ∧
    ((bindPass1 l s low).1.nodes c).staleCount = (s.nodes c).staleCount := by
  rw [bindPass1_nodes]
  by_cases h : c ∈ l ∧ (s.nodes c).diffValue = 0 <;> simp [h]

theorem bindDiff_state (s : MobxState) (d : Nat) (prev pend : List Nat) :
    ((bindDiff s d prev pend).nodes d).dependenciesState =
      (if (bindPass1 pend s IDerivationState.UP_TO_DATE).2.2 = IDerivationState.UP_TO_DATE
       then (s.nodes d).dependenciesState
       else some (bindPass1 pend s IDerivationState.UP_TO_DATE).2.2) ∧
    ((bindDiff s d prev pend).nodes d).staleCount =
      (if (bindPass1 pend s IDerivationState.UP_TO_DATE).2.2 = IDerivationState.UP_TO_DATE
       then (s.nodes d).staleCount
       else (s.nodes d).staleCount + 1) := by
  set p1 := bindPass1 pend s IDerivationState.UP_TO_DATE with hp1def
  set s2 := updNode p1.1 d (fun n => { n with observing := p1.2.1 }) with hs2def
  set s3 := bindPass2 d prev.reverse s2 with hs3def
  set s4 := bindPass3 d p1.2.1.reverse s3 with hs4def
  have hunfold : bindDiff s d prev pend =
      if p1.2.2 = IDerivationState.UP_TO_DATE then s4
      else updNode (updNode s4 d (fun n => { n with dependenciesState := some p1.2.2 })) d
        (fun n => { n with staleCount := n.staleCount + 1 }) := rfl
  have h4 : ((s4.nodes d).dependenciesState = (s.nodes d).dependenciesState) ∧
      ((s4.nodes d).staleCount = (s.nodes d).staleCount) := by
    have hp3 := bindPass3_preserves d p1.2.1.reverse s3 d
    rw [← hs4def] at hp3
    have hp2 := bindPass2_preserves d prev.reverse s2 d
    rw [← hs3def] at hp2
    have hp1 := bindPass1_preserves pend s IDerivationState.UP_TO_DATE d
    rw [← hp1def] at hp1
    constructor
    · rw [hp3.2.1, hp2.2.1, hs2def, updNode_nodes_self]
      show (p1.1.nodes d).dependenciesState = _
      exact hp1.1
    · rw [hp3.2.2, hp2.2.2, hs2def, updNode_nodes_self]
      show (p1.1.nodes d).staleCount = _
      exact hp1.2
  rw [hunfold]
  by_cases hl : p1.2.2 = IDerivationState.UP_TO_DATE
  · rw [if_pos hl, if_pos hl, if_pos hl]
    exact h4
  · rw [if_neg hl, if_neg hl, if_neg hl, updNode_updNode_same, updNode_nodes_self]
    exact ⟨rfl, by show (s4.nodes d).staleCount + 1 = _; rw [h4.2]⟩

/-! ## The running maximum of dependency states -/

theorem maxStateOpt_le_left (acc : IDerivationState) (o : Option IDerivationState) :
    stateValue acc ≤ stateValue (maxStateOpt acc o) := by
  cases o with
  | none => exact le_refl _
  | some st =>
      rw [maxStateOpt]
      by_cases h : stateValue acc < stateValue st
      · rw [if_pos h]; exact le_of_lt h
      · rw [if_neg h]

theorem maxStateOpt_le_right (acc st : IDerivationState) :
    stateValue st ≤ stateValue (maxStateOpt acc (some st)) := by
  rw [maxStateOpt]
  by_cases h : stateValue acc < stateValue st
  · rw [if_pos h]
  · rw [if_neg h]; exact le_of_not_lt h

theorem maxStateOpt_cases (acc : IDerivationState) (o : Option IDerivationState) :
    maxStateOpt acc o = acc ∨ ∃ st, o = some st ∧ maxStateOpt acc o = st := by
  cases o with
  | none => exact Or.inl rfl
  | some st =>
      rw [maxStateOpt]
      by_cases h : stateValue acc < stateValue st
      · exact Or.inr ⟨st, rfl, by rw [if_pos h]⟩
      · exact Or.inl (by rw [if_neg h])

theorem foldl_maxStateOpt_mono (l : List Nat) (f : Nat → Option IDerivationState)
    (low : IDerivationState) :
    stateValue low ≤
      stateValue (l.foldl (fun acc c => maxStateOpt acc (f c)) low) := by
  induction l generalizing low with
  | nil => exact le_refl _
  | cons a rest ih =>
      simp only [List.foldl_cons]
      exact le_trans (maxStateOpt_le_left low (f a)) (ih _)

theorem foldl_maxStateOpt_le (l : List Nat) (f : Nat → Option IDerivationState)
    (low : IDerivationState) (c : Nat) (st : IDerivationState) :
    c ∈ l → f c = some st →
    stateValue st ≤ stateValue (l.foldl (fun acc c => maxStateOpt acc (f c)) low) := by
  induction l generalizing low with
  | nil => intro hc; cases hc
  | cons a rest ih =>
      intro hc hst
      simp only [List.foldl_cons]
      rcases List.mem_cons.1 hc with rfl | hc2
      · refine le_trans ?_ (foldl_maxStateOpt_mono rest f _)
        rw [hst]
        exact maxStateOpt_le_right low st
      · exact ih _ hc2 hst

theorem foldl_maxStateOpt_attained (l : List Nat) (f : Nat → Option IDerivationState)
    (low : IDerivationState) :
    l.foldl (fun acc c => maxStateOpt acc (f c)) low = low ∨
    ∃ c ∈ l, f c = some (l.foldl (fun acc c => maxStateOpt acc (f c)) low) := by
  induction l generalizing low with
  | nil => exact Or.inl rfl
  | cons a rest ih =>
      simp only [List.foldl_cons]
      rcases ih (maxStateOpt low (f a)) with h | ⟨c, hc, hfc⟩
      · rw [h]
        rcases maxStateOpt_cases low (f a) with h2 | ⟨st, hst, h2⟩
        · exact Or.inl h2
        · refine Or.inr ⟨a, List.mem_cons_self a rest, ?_⟩
          rw [hst] at h2 ⊢
          rw [h2]
      · exact Or.inr ⟨c, List.mem_cons_of_mem _ hc, hfc⟩

/-! ## bindDependencies assembled -/

theorem bindDependencies_eq (s : MobxState) (d : Nat) :
    bindDependencies s d =
      bindDiff (updNode s d (fun n => { n with newObserving := none })) d
        ((s.nodes d).observing)
        (((s.nodes d).newObserving.getD []).take (s.nodes d).unboundDepsCount) := rfl

theorem updNode_clearNew_fields (s : MobxState) (d c : Nat) :
    ((updNode s d (fun n => { n with newObserving := none })).nodes c).observers =
      (s.nodes c).observers ∧
    ((updNode s d (fun n => { n with newObserving := none })).nodes c).diffValue =
      (s.nodes c).diffValue ∧
    ((updNode s d (fun n => { n with newObserving := none })).nodes c).observing =
      (s.nodes c).observing ∧
    ((updNode s d (fun n => { n with newObserving := none })).nodes c).dependenciesState =
      (s.nodes c).dependenciesState := by
  by_cases hc : c = d
  · subst hc
    rw [updNode_nodes_self]
    exact ⟨rfl, rfl, rfl, rfl⟩
  · rw [updNode_nodes_ne _ _ _ hc]
    exact ⟨rfl, rfl, rfl, rfl⟩

theorem bindDependencies_spec (s : MobxState) (d : Nat)
    (hdiff : ∀ c, (s.nodes c).diffValue = 0)
    (hprev : ((s.nodes d).observing).Nodup) :
    ((bindDependencies s d).nodes d).observing =
      dedupFirst (((s.nodes d).newObserving.getD []).take (s.nodes d).unboundDepsCount) ∧
    (∀ c, ((bindDependencies s d).nodes c).observers =
      (if c ∈ (s.nodes d).observing ∧
          c ∉ (((s.nodes d).newObserving.getD []).take (s.nodes d).unboundDepsCount)
       then (s.nodes c).observers.filter (fun x => x != d)
       else if c ∈ (((s.nodes d).newObserving.getD []).take (s.nodes d).unboundDepsCount) ∧
          c ∉ (s.nodes d).observing
       then (s.nodes c).observers ++ [d]
       else (s.nodes c).observers)) ∧
    (∀ c, ((bindDependencies s d).nodes c).diffValue = 0) := by
  rw [bindDependencies_eq]
  rcases bindDiff_spec (updNode s d (fun n => { n with newObserving := none })) d
      ((s.nodes d).observing)
      (((s.nodes d).newObserving.getD []).take (s.nodes d).unboundDepsCount)
      (fun c => by rw [(updNode_clearNew_fields s d c).2.1]; exact hdiff c)
      hprev with ⟨h1, h2, h3⟩
  refine ⟨h1, ?_, h3⟩
  intro c
  rw [h2 c, (updNode_clearNew_fields s d c).1]

/-! ## C5: the lowest new observing state -/

/-- C5: the accumulated "lowest new observing state" L is the maximum
dependenciesState over the pending-read buffer (every entry that is a
derivation is at most L, and when L is not UP_TO_DATE it is attained by some
entry); if L is not UP_TO_DATE, at the end of the bind step the derivation's
dependenciesState equals L and its stale callback has been invoked (its
invocation count incremented); if L is UP_TO_DATE the bind step leaves the
derivation's state and callback count untouched (in particular an
UP_TO_DATE state stays UP_TO_DATE and the callback is not invoked). -/
theorem C5_lowest_new_observing (s : MobxState) (d : Nat) :
    (∀ c ∈ (((s.nodes d).newObserving.getD []).take (s.nodes d).unboundDepsCount),
      ∀ st, (s.nodes c).dependenciesState = some st →
        stateValue st ≤ stateValue (lowestNewObserving s
          (((s.nodes d).newObserving.getD []).take (s.nodes d).unboundDepsCount))) ∧
    (lowestNewObserving s (((s.nodes d).newObserving.getD []).take
        (s.nodes d).unboundDepsCount) ≠ IDerivationState.UP_TO_DATE →
      (∃ c ∈ (((s.nodes d).newObserving.getD []).take (s.nodes d).unboundDepsCount),
        (s.nodes c).dependenciesState = some (lowestNewObserving s
          (((s.nodes d).newObserving.getD []).take (s.nodes d).unboundDepsCount))) ∧
      ((bindDependencies s d).nodes d).dependenciesState = some (lowestNewObserving s
        (((s.nodes d).newObserving.getD []).take (s.nodes d).unboundDepsCount)) ∧
      ((bindDependencies s d).nodes d).staleCount = (s.nodes d).staleCount + 1) ∧
    (lowestNewObserving s (((s.nodes d).newObserving.getD []).take
        (s.nodes d).unboundDepsCount) = IDerivationState.UP_TO_DATE →
      ((bindDependencies s d).nodes d).dependenciesState =
        (s.nodes d).dependenciesState ∧
      ((bindDependencies s d).nodes d).staleCount = (s.nodes d).staleCount) := by
  have hlow : (bindPass1
      (((s.nodes d).newObserving.getD []).take (s.nodes d).unboundDepsCount)
      (updNode s d (fun n => { n with newObserving := none }))
      IDerivationState.UP_TO_DATE).2.2 =
      lowestNewObserving s
        (((s.nodes d).newObserving.getD []).take (s.nodes d).unboundDepsCount) := by
    rw [bindPass1_low, lowestNewObserving]
    exact foldl_maxStateOpt_congr _ _ _ _
      (fun c _ => (updNode_clearNew_fields s d c).2.2.2)
  rcases bindDiff_state (updNode s d (fun n => { n with newObserving := none })) d
      ((s.nodes d).observing)
      (((s.nodes d).newObserving.getD []).take (s.nodes d).unboundDepsCount)
    with ⟨hds, hsc⟩
  rw [hlow] at hds hsc
  rw [← bindDependencies_eq] at hds hsc
  have hd0 : ((updNode s d (fun n => { n with newObserving := none })).nodes d).dependenciesState =
      (s.nodes d).dependenciesState := (updNode_clearNew_fields s d d).2.2.2
  have hs0 : ((updNode s d (fun n => { n with newObserving := none })).nodes d).staleCount =
      (s.nodes d).staleCount := by
    rw [updNode_nodes_self]
  refine ⟨?_, ?_, ?_⟩
  · intro c hc st hst
    rw [lowestNewObserving]
    exact foldl_maxStateOpt_le _ _ _ c st hc hst
  · intro hne
    refine ⟨?_, ?_, ?_⟩
    · rcases foldl_maxStateOpt_attained
          (((s.nodes d).newObserving.getD []).take (s.nodes d).unboundDepsCount)
          (fun c => (s.nodes c).dependenciesState) IDerivationState.UP_TO_DATE with h | h
      · exact absurd h hne
      · exact h
    · rw [hds, if_neg hne]
    · rw [hsc, if_neg hne, hs0]
  · intro he
    constructor
    · rw [hds, if_pos he, hd0]
    · rw [hsc, if_pos he, hs0]

/-- C5 witness: in `stBindStale` derivation 0 has pending buffer [1, 2] where
cell 1 is a STALE derivation, so L = STALE, the bound state is STALE and the
callback fired once. -/
theorem C5_witness :
    (∀ c ∈ (((stBindStale.nodes 0).newObserving.getD []).take
        (stBindStale.nodes 0).unboundDepsCount),
      ∀ st, (stBindStale.nodes c).dependenciesState = some st →
        stateValue st ≤ stateValue (lowestNewObserving stBindStale
          (((stBindStale.nodes 0).newObserving.getD []).take
            (stBindStale.nodes 0).unboundDepsCount))) ∧
    (lowestNewObserving stBindStale (((stBindStale.nodes 0).newObserving.getD []).take
        (stBindStale.nodes 0).unboundDepsCount) ≠ IDerivationState.UP_TO_DATE →
      (∃ c ∈ (((stBindStale.nodes 0).newObserving.getD []).take
          (stBindStale.nodes 0).unboundDepsCount),
        (stBindStale.nodes c).dependenciesState = some (lowestNewObserving stBindStale
          (((stBindStale.nodes 0).newObserving.getD []).take
            (stBindStale.nodes 0).unboundDepsCount))) ∧
      ((bindDependencies stBindStale 0).nodes 0).dependenciesState =
        some (lowestNewObserving stBindStale
          (((stBindStale.nodes 0).newObserving.getD []).take
            (stBindStale.nodes 0).unboundDepsCount)) ∧
      ((bindDependencies stBindStale 0).nodes 0).staleCount =
        (stBindStale.nodes 0).staleCount + 1) ∧
    (lowestNewObserving stBindStale (((stBindStale.nodes 0).newObserving.getD []).take
        (stBindStale.nodes 0).unboundDepsCount) = IDerivationState.UP_TO_DATE →
      ((bindDependencies stBindStale 0).nodes 0).dependenciesState =
        (stBindStale.nodes 0).dependenciesState ∧
      ((bindDependencies stBindStale 0).nodes 0).staleCount =
        (stBindStale.nodes 0).staleCount) :=
  C5_lowest_new_observing stBindStale 0

/-! ## Preservation facts for the tracking prologue -/

theorem resetFloors_preserves (l : List Nat) (s : MobxState) (c : Nat) :
    ((resetFloors l s).nodes c).observers = (s.nodes c).observers ∧
    ((resetFloors l s).nodes c).observing = (s.nodes c).observing ∧
    ((resetFloors l s).nodes c).diffValue = (s.nodes c).diffValue ∧
    ((resetFloors l s).nodes c).newObserving = (s.nodes c).newObserving ∧
    ((resetFloors l s).nodes c).unboundDepsCount = (s.nodes c).unboundDepsCount := by
  induction l generalizing s with
  | nil => exact ⟨rfl, rfl, rfl, rfl, rfl⟩
  | cons a rest ih =>
      rw [resetFloors]
      rcases ih (updNode s a
        (fun n => { n with lowestObserverState := IDerivationState.UP_TO_DATE }))
        with ⟨h1, h2, h3, h4, h5⟩
      rw [h1, h2, h3, h4, h5]
      by_cases hca : c = a
      · subst hca
        rw [updNode_nodes_self]
        exact ⟨rfl, rfl, rfl, rfl, rfl⟩
      · rw [updNode_nodes_ne _ _ _ hca]
        exact ⟨rfl, rfl, rfl, rfl, rfl⟩

theorem resetFloors_global (l : List Nat) (s : MobxState) :
    (resetFloors l s).trackingDerivation = s.trackingDerivation ∧
    (resetFloors l s).runId = s.runId := by
  induction l generalizing s with
  | nil => exact ⟨rfl, rfl⟩
  | cons a rest ih =>
      rw [resetFloors]
      rcases ih (updNode s a
        (fun n => { n with lowestObserverState := IDerivationState.UP_TO_DATE }))
        with ⟨h1, h2⟩
      rw [h1, h2]
      exact ⟨rfl, rfl⟩

theorem changeDeps0_preserves (s : MobxState) (d c : Nat) :
    ((changeDependenciesStateTo0 s d).nodes c).observers = (s.nodes c).observers ∧
    ((changeDependenciesStateTo0 s d).nodes c).observing = (s.nodes c).observing ∧
    ((changeDependenciesStateTo0 s d).nodes c).diffValue = (s.nodes c).diffValue ∧
    ((changeDependenciesStateTo0 s d).nodes c).newObserving = (s.nodes c).newObserving ∧
    ((changeDependenciesStateTo0 s d).nodes c).unboundDepsCount =
      (s.nodes c).unboundDepsCount := by
  rw [changeDependenciesStateTo0]
  by_cases h : (s.nodes d).dependenciesState = some IDerivationState.UP_TO_DATE
  · rw [if_pos h]
    exact ⟨rfl, rfl, rfl, rfl, rfl⟩
  · rw [if_neg h]
    rcases resetFloors_preserves
        (((updNode s d (fun n =>
          { n with dependenciesState := some IDerivationState.UP_TO_DATE })).nodes d).observing).reverse
        (updNode s d (fun n =>
          { n with dependenciesState := some IDerivationState.UP_TO_DATE })) c
      with ⟨h1, h2, h3, h4, h5⟩
    rw [h1, h2, h3, h4, h5]
    by_cases hc : c = d
    · subst hc
      rw [updNode_nodes_self]
      exact ⟨rfl, rfl, rfl, rfl, rfl⟩
    · rw [updNode_nodes_ne _ _ _ hc]
      exact ⟨rfl, rfl, rfl, rfl, rfl⟩

theorem changeDeps0_global (s : MobxState) (d : Nat) :
    (changeDependenciesStateTo0 s d).trackingDerivation = s.trackingDerivation ∧
    (changeDependenciesStateTo0 s d).runId = s.runId := by
  rw [changeDependenciesStateTo0]
  by_cases h : (s.nodes d).dependenciesState = some IDerivationState.UP_TO_DATE
  · rw [if_pos h]
    exact ⟨rfl, rfl⟩
  · rw [if_neg h]
    rcases resetFloors_global
        (((updNode s d (fun n =>
          { n with dependenciesState := some IDerivationState.UP_TO_DATE })).nodes d).observing).reverse
        (updNode s d (fun n =>
          { n with dependenciesState := some IDerivationState.UP_TO_DATE }))
      with ⟨h1, h2⟩
    rw [h1, h2]
    exact ⟨rfl, rfl⟩

/-! ## runReads -/

theorem reportObserved_tracked (s : MobxState) (c d : Nat)
    (h : s.trackingDerivation = some d) :
    reportObserved s c = updNode s d (fun n =>
      { n with newObserving := some ((n.newObserving.getD []) ++ [c]),
               unboundDepsCount := n.unboundDepsCount + 1 }) := by
  rw [reportObserved, h]

theorem runReads_spec (rs : List Nat) (s : MobxState) (d : Nat) (buf : List Nat)
    (h : s.trackingDerivation = some d)
    (hb : (s.nodes d).newObserving = some buf) :
    runReads rs s = updNode s d (fun n =>
      { n with newObserving := some (buf ++ rs),
               unboundDepsCount := n.unboundDepsCount + rs.length }) := by
  induction rs generalizing s buf with
  | nil =>
      rw [runReads]
      ext j : 2
      · by_cases hj : j = d
        · subst hj
          rw [updNode_nodes_self]
          simp only [List.append_nil, List.length_nil, Nat.add_zero, ← hb]
        · rw [updNode_nodes_ne _ _ _ hj]
      all_goals rfl
  | cons c rest ih =>
      rw [runReads, reportObserved_tracked s c d h]
      have htr : (updNode s d (fun n =>
          { n with newObserving := some ((n.newObserving.getD []) ++ [c]),
                   unboundDepsCount := n.unboundDepsCount + 1 })).trackingDerivation =
          some d := by
        rw [updNode_trackingDerivation, h]
      have hbf : ((updNode s d (fun n =>
          { n with newObserving := some ((n.newObserving.getD []) ++ [c]),
                   unboundDepsCount := n.unboundDepsCount + 1 })).nodes d).newObserving =
          some (buf ++ [c]) := by
        rw [updNode_nodes_self]
        show some ((s.nodes d).newObserving.getD [] ++ [c]) = some (buf ++ [c])
        rw [hb]
        rfl
      rw [ih _ (buf ++ [c]) htr hbf, updNode_updNode_same]
      congr 1
      funext n
      have hlist : (buf ++ [c]) ++ rest = buf ++ (c :: rest) := by simp
      have hnat : n.unboundDepsCount + 1 + rest.length =
          n.unboundDepsCount + (rest.length + 1) := by omega
      show ({ n with
          newObserving := some (buf ++ [c] ++ rest),
          unboundDepsCount := n.unboundDepsCount + 1 + rest.length } : Node) = _
      rw [hlist, hnat]
      rfl

/-! ## Tracking a pure read sequence -/

theorem track_reads {ε α : Type} (d : Nat) (rs : List Nat) (re : Except ε α) (s : MobxState)
    (hdiff : ∀ c, (s.nodes c).diffValue = 0)
    (hprev : ((s.nodes d).observing).Nodup) :
    (((trackDerivedFunction d (fun t => (runReads rs t, re)) s).1.nodes d).observing =
      dedupFirst rs) ∧
    (∀ c, ((trackDerivedFunction d (fun t => (runReads rs t, re)) s).1.nodes c).observers =
      (if c ∈ (s.nodes d).observing ∧ c ∉ rs
       then (s.nodes c).observers.filter (fun x => x != d)
       else if c ∈ rs ∧ c ∉ (s.nodes d).observing
       then (s.nodes c).observers ++ [d]
       else (s.nodes c).observers)) := by
  set s1 := changeDependenciesStateTo0 s d with hs1def
  set s2 : MobxState := { s1 with runId := s1.runId + 1 } with hs2def
  set s3 := updNode s2 d (fun n =>
    { n with newObserving := some [], unboundDepsCount := 0, runId := s2.runId }) with hs3def
  set s4 : MobxState := { s3 with trackingDerivation := some d } with hs4def
  have htr4 : s4.trackingDerivation = some d := rfl
  have hb4 : (s4.nodes d).newObserving = some [] := by
    show (s3.nodes d).newObserving = some []
    rw [hs3def, updNode_nodes_self]
  have hrun := runReads_spec rs s4 d [] htr4 hb4
  set s5 := updNode s4 d (fun n =>
    { n with newObserving := some ([] ++ rs),
             unboundDepsCount := n.unboundDepsCount + rs.length }) with hs5def
  set s6 : MobxState := { s5 with trackingDerivation := s3.trackingDerivation } with hs6def
  have heq : (trackDerivedFunction d (fun t => (runReads rs t, re)) s).1 =
      bindDependencies s6 d := by
    have h0 : (trackDerivedFunction d (fun t => (runReads rs t, re)) s).1 =
        bindDependencies { runReads rs s4 with
          trackingDerivation := s3.trackingDerivation } d := rfl
    rw [h0, hrun]
  have h3f : ∀ c, (s3.nodes c).observers = (s1.nodes c).observers ∧
      (s3.nodes c).observing = (s1.nodes c).observing ∧
      (s3.nodes c).diffValue = (s1.nodes c).diffValue := by
    intro c
    rw [hs3def]
    by_cases hc : c = d
    · subst hc
      rw [updNode_nodes_self]
      exact ⟨rfl, rfl, rfl⟩
    · rw [updNode_nodes_ne _ _ _ hc]
      exact ⟨rfl, rfl, rfl⟩
  have h5f : ∀ c, (s5.nodes c).observers = (s3.nodes c).observers ∧
      (s5.nodes c).observing = (s3.nodes c).observing ∧
      (s5.nodes c).diffValue = (s3.nodes c).diffValue := by
    intro c
    rw [hs5def]
    by_cases hc : c = d
    · subst hc
      rw [updNode_nodes_self]
      exact ⟨rfl, rfl, rfl⟩
    · rw [updNode_nodes_ne _ _ _ hc]
      exact ⟨rfl, rfl, rfl⟩
  have hnodes6 : ∀ c, (s6.nodes c).observers = (s.nodes c).observers ∧
      (s6.nodes c).observing = (s.nodes c).observing ∧
      (s6.nodes c).diffValue = (s.nodes c).diffValue := by
    intro c
    rcases changeDeps0_preserves s d c with ⟨hp1, hp2, hp3, -, -⟩
    refine ⟨?_, ?_, ?_⟩
    · calc (s6.nodes c).observers = (s5.nodes c).observers := rfl
        _ = (s3.nodes c).observers := (h5f c).1
        _ = (s1.nodes c).observers := (h3f c).1
        _ = (s.nodes c).observers := hp1
    · calc (s6.nodes c).observing = (s5.nodes c).observing := rfl
        _ = (s3.nodes c).observing := (h5f c).2.1
        _ = (s1.nodes c).observing := (h3f c).2.1
        _ = (s.nodes c).observing := hp2
    · calc (s6.nodes c).diffValue = (s5.nodes c).diffValue := rfl
        _ = (s3.nodes c).diffValue := (h5f c).2.2
        _ = (s1.nodes c).diffValue := (h3f c).2.2
        _ = (s.nodes c).diffValue := hp3
  have hpend : ((s6.nodes d).newObserving.getD []).take (s6.nodes d).unboundDepsCount =
      rs := by
    have hnew : (s6.nodes d).newObserving = some ([] ++ rs) := by
      show (s5.nodes d).newObserving = _
      rw [hs5def, updNode_nodes_self]
    have hu3 : (s3.nodes d).unboundDepsCount = 0 := by
      rw [hs3def, updNode_nodes_self]
    have hcnt : (s6.nodes d).unboundDepsCount = rs.length := by
      show (s5.nodes d).unboundDepsCount = _
      rw [hs5def, updNode_nodes_self]
      show (s4.nodes d).unboundDepsCount + rs.length = rs.length
      rw [show (s4.nodes d).unboundDepsCount = (s3.nodes d).unboundDepsCount from rfl, hu3]
      exact Nat.zero_add _
    rw [hnew, hcnt]
    simp
  rcases bindDependencies_spec s6 d
      (fun c => by rw [(hnodes6 c).2.2]; exact hdiff c)
      (by rw [(hnodes6 d).2.1]; exact hprev) with ⟨hA, hB, -⟩
  rw [hpend] at hA hB
  constructor
  · rw [heq, hA]
  · intro c
    rw [heq, hB c, (hnodes6 d).2.1, (hnodes6 c).1]

/-! ## C1: dependency-set exactness of evaluate-with-tracking -/

/-- C1: running evaluate-with-tracking on a body that reads the cells `rs`
in order leaves the derivation's dependency list equal to the sequence of
first occurrences of `rs` in read order, puts the derivation exactly once in
the observer set of every read cell, and removes it from the observer set of
every previously observed cell that was not read again.  The hypotheses say
the starting state is clean: diff markers neutral, the previous dependency
list duplicate-free, observer sets mirroring dependency lists and
duplicate-free. -/
theorem C1_dependency_exactness (s : MobxState) (d : Nat) (rs : List Nat)
    (hdiff : ∀ c, (s.nodes c).diffValue = 0)
    (hprev : ((s.nodes d).observing).Nodup)
    (hinv : ∀ c, d ∈ (s.nodes c).observers ↔ c ∈ (s.nodes d).observing)
    (hnodup : ∀ c, ((s.nodes c).observers).Nodup) :
    (((trackDerivedFunction d
        (fun t => (runReads rs t, (Except.ok () : Except Unit Unit))) s).1.nodes d).observing =
      dedupFirst rs) ∧
    (∀ c ∈ rs, (((trackDerivedFunction d
        (fun t => (runReads rs t, (Except.ok () : Except Unit Unit))) s).1.nodes c).observers).count d
      = 1) ∧
    (∀ c, c ∈ (s.nodes d).observing → c ∉ rs →
      d ∉ ((trackDerivedFunction d
        (fun t => (runReads rs t, (Except.ok () : Except Unit Unit))) s).1.nodes c).observers) := by
  rcases track_reads d rs (Except.ok ()) s hdiff hprev with ⟨hA, hB⟩
  refine ⟨hA, ?_, ?_⟩
  · intro c hc
    rw [hB c]
    by_cases hcp : c ∈ (s.nodes d).observing
    · rw [if_neg (fun h => h.2 hc), if_neg (fun h => h.2 hcp)]
      exact List.count_eq_one_of_mem (hnodup c) ((hinv c).2 hcp)
    · rw [if_neg (fun h => hcp h.1), if_pos ⟨hc, hcp⟩, List.count_append]
      have hzero : ((s.nodes c).observers).count d = 0 :=
        List.count_eq_zero.2 (fun hmem => hcp ((hinv c).1 hmem))
      rw [hzero]
      simp
  · intro c hcp hcn
    rw [hB c, if_pos ⟨hcp, hcn⟩]
    simp [List.mem_filter]

/-- C1 witness: derivation 0 of `stTrack` reads 1, 2, 1, 3; afterwards its
dependency list is [1, 2, 3] and each of 1, 2, 3 holds it exactly once. -/
theorem C1_witness :
    ((((trackDerivedFunction 0
        (fun t => (runReads [1, 2, 1, 3] t, (Except.ok () : Except Unit Unit)))
        stTrack).1.nodes 0).observing = dedupFirst [1, 2, 1, 3]) ∧
    (∀ c ∈ [1, 2, 1, 3], ((((trackDerivedFunction 0
        (fun t => (runReads [1, 2, 1, 3] t, (Except.ok () : Except Unit Unit)))
        stTrack).1.nodes c).observers).count 0) = 1) ∧
    (∀ c, c ∈ (stTrack.nodes 0).observing → c ∉ [1, 2, 1, 3] →
      0 ∉ (((trackDerivedFunction 0
        (fun t => (runReads [1, 2, 1, 3] t, (Except.ok () : Except Unit Unit)))
        stTrack).1.nodes c).observers))) :=
  C1_dependency_exactness stTrack 0 [1, 2, 1, 3]
    (fun _ => rfl) (by simp [stTrack]) (fun c => by simp [stTrack]) (fun c => by simp [stTrack])

/-! ## C3: a failing body still binds and the failure is re-raised -/

/-- C3: if the body reads the cells `rs` and then raises `e`, the failure is
captured and handed back to the caller as the distinguished caught value,
the final state is exactly the state a successful run with the same reads
would produce (dependency binding completed fully), and in particular the
derivation is subscribed to every cell it read. -/
theorem C3_failure_still_binds {ε : Type} (s : MobxState) (d : Nat) (rs : List Nat) (e : ε)
    (hdiff : ∀ c, (s.nodes c).diffValue = 0)
    (hprev : ((s.nodes d).observing).Nodup)
    (hinv : ∀ c, d ∈ (s.nodes c).observers ↔ c ∈ (s.nodes d).observing) :
    ((trackDerivedFunction d
        (fun t => (runReads rs t, (Except.error e : Except ε Unit))) s).2 =
      TrackResult.caught e) ∧
    ((trackDerivedFunction d
        (fun t => (runReads rs t, (Except.error e : Except ε Unit))) s).1 =
      (trackDerivedFunction d
        (fun t => (runReads rs t, (Except.ok () : Except Unit Unit))) s).1) ∧
    (∀ c ∈ rs, d ∈ ((trackDerivedFunction d
        (fun t => (runReads rs t, (Except.error e : Except ε Unit))) s).1.nodes c).observers) := by
  refine ⟨rfl, rfl, ?_⟩
  rcases track_reads d rs (Except.error e : Except ε Unit) s hdiff hprev with ⟨-, hB⟩
  intro c hc
  rw [hB c]
  by_cases hcp : c ∈ (s.nodes d).observing
  · rw [if_neg (fun h => h.2 hc), if_neg (fun h => h.2 hcp)]
    exact (hinv c).2 hcp
  · rw [if_neg (fun h => hcp h.1), if_pos ⟨hc, hcp⟩]
    simp

/-- C3 witness: derivation 0 of `stTrack` reads cell 1 and raises; the
result is the caught failure, the state matches the successful run, and 0 is
subscribed to 1. -/
theorem C3_witness :
    (((trackDerivedFunction 0
        (fun t => (runReads [1] t, (Except.error () : Except Unit Unit))) stTrack).2 =
      TrackResult.caught ()) ∧
    ((trackDerivedFunction 0
        (fun t => (runReads [1] t, (Except.error () : Except Unit Unit))) stTrack).1 =
      (trackDerivedFunction 0
        (fun t => (runReads [1] t, (Except.ok () : Except Unit Unit))) stTrack).1) ∧
    (∀ c ∈ [1], 0 ∈ ((trackDerivedFunction 0
        (fun t => (runReads [1] t, (Except.error () : Except Unit Unit)))
          stTrack).1.nodes c).observers)) :=
  C3_failure_still_binds stTrack 0 [1] ()
    (fun _ => rfl) (by simp [stTrack]) (fun c => by simp [stTrack])

/-! ## Extra facts for the bidirectional invariant -/

theorem dedupFirst_mem (l : List Nat) (c : Nat) : c ∈ dedupFirst l ↔ c ∈ l := by
  rw [dedupFirst, keptOf_mem]
  simp

theorem dedupFirst_nodup (l : List Nat) : (dedupFirst l).Nodup := keptOf_nodup _ _

theorem bindDiff_observing_ne (s : MobxState) (d : Nat) (prev pend : List Nat) {c : Nat}
    (hc : c ≠ d) :
    ((bindDiff s d prev pend).nodes c).observing = (s.nodes c).observing := by
  set p1 := bindPass1 pend s IDerivationState.UP_TO_DATE with hp1def
  set s2 := updNode p1.1 d (fun n => { n with observing := p1.2.1 }) with hs2def
  set s3 := bindPass2 d prev.reverse s2 with hs3def
  set s4 := bindPass3 d p1.2.1.reverse s3 with hs4def
  have hunfold : bindDiff s d prev pend =
      if p1.2.2 = IDerivationState.UP_TO_DATE then s4
      else updNode (updNode s4 d (fun n => { n with dependenciesState := some p1.2.2 })) d
        (fun n => { n with staleCount := n.staleCount + 1 }) := rfl
  have h1 : (p1.1.nodes c).observing = (s.nodes c).observing := by
    rw [hp1def, bindPass1_nodes]
    by_cases h : c ∈ pend ∧ (s.nodes c).diffValue = 0 <;> simp [h]
  have h2 : (s2.nodes c).observing = (s.nodes c).observing := by
    rw [hs2def, updNode_nodes_ne _ _ _ hc]
    exact h1
  have h3 : (s3.nodes c).observing = (s.nodes c).observing := by
    have := (bindPass2_preserves d prev.reverse s2 c).1
    rw [← hs3def] at this
    rw [this, h2]
  have h4 : (s4.nodes c).observing = (s.nodes c).observing := by
    have := (bindPass3_preserves d p1.2.1.reverse s3 c).1
    rw [← hs4def] at this
    rw [this, h3]
  rw [hunfold]
  by_cases hl : p1.2.2 = IDerivationState.UP_TO_DATE
  · rw [if_pos hl]
    exact h4
  · rw [if_neg hl, updNode_updNode_same, updNode_nodes_ne _ _ _ hc]
    exact h4

theorem bindDependencies_observing_ne (s : MobxState) (d : Nat) {c : Nat} (hc : c ≠ d) :
    ((bindDependencies s d).nodes c).observing = (s.nodes c).observing := by
  rw [bindDependencies_eq,
    bindDiff_observing_ne (updNode s d (fun n => { n with newObserving := none })) d _ _ hc,
    updNode_nodes_ne _ _ _ hc]

theorem removeObsList_observers (d : Nat) (l : List Nat) (s : MobxState)
    (hl : l.Nodup) (c : Nat) :
    ((removeObsList d l s).nodes c).observers =
      (if c ∈ l then (s.nodes c).observers.filter (fun x => x != d)
       else (s.nodes c).observers) := by
  induction l generalizing s with
  | nil => simp [removeObsList]
  | cons a rest ih =>
      have hna : a ∉ rest := (List.nodup_cons.1 hl).1
      have hrest : rest.Nodup := (List.nodup_cons.1 hl).2
      rw [removeObsList, ih _ hrest]
      by_cases hca : c = a
      · subst hca
        rw [removeObserver, updNode_nodes_self]
        simp [hna]
      · rw [removeObserver, updNode_nodes_ne _ _ _ hca]
        simp [List.mem_cons, hca]

theorem removeObsList_preserves (d : Nat) (l : List Nat) (s : MobxState) (c : Nat) :
    ((removeObsList d l s).nodes c).observing = (s.nodes c).observing ∧
    ((removeObsList d l s).nodes c).diffValue = (s.nodes c).diffValue := by
  induction l generalizing s with
  | nil => exact ⟨rfl, rfl⟩
  | cons a rest ih =>
      rw [removeObsList]
      rcases ih (removeObserver s a d) with ⟨ih1, ih2⟩
      rw [ih1, ih2]
      by_cases hca : c = a
      · subst hca
        rw [removeObserver, updNode_nodes_self]
        exact ⟨rfl, rfl⟩
      · rw [removeObserver, updNode_nodes_ne _ _ _ hca]
        exact ⟨rfl, rfl⟩

theorem clearObserving_fields (s : MobxState) (d : Nat)
    (hprev : ((s.nodes d).observing).Nodup) (c : Nat) :
    ((clearObserving s d).nodes c).observers =
      (if c ∈ (s.nodes d).observing
       then (s.nodes c).observers.filter (fun x => x != d)
       else (s.nodes c).observers) ∧
    ((clearObserving s d).nodes c).observing =
      (if c = d then [] else (s.nodes c).observing) ∧
    ((clearObserving s d).nodes c).diffValue = (s.nodes c).diffValue := by
  have hrev : (((s.nodes d).observing).reverse).Nodup := List.nodup_reverse.2 hprev
  set s1 := updNode s d (fun n => { n with observing := [] }) with hs1def
  set s2 := removeObsList d ((s.nodes d).observing).reverse s1 with hs2def
  have hunfold : clearObserving s d =
      updNode s2 d (fun n =>
        { n with dependenciesState := some IDerivationState.NOT_TRACKING }) := rfl
  have h1 : ∀ x, (s1.nodes x).observers = (s.nodes x).observers ∧
      (s1.nodes x).observing = (if x = d then [] else (s.nodes x).observing) ∧
      (s1.nodes x).diffValue = (s.nodes x).diffValue := by
    intro x
    by_cases hx : x = d
    · subst hx
      rw [hs1def, updNode_nodes_self]
      simp
    · rw [hs1def, updNode_nodes_ne _ _ _ hx]
      simp [hx]
  have h2obs : (s2.nodes c).observers =
      (if c ∈ (s.nodes d).observing
       then (s.nodes c).observers.filter (fun x => x != d)
       else (s.nodes c).observers) := by
    have := removeObsList_observers d ((s.nodes d).observing).reverse s1 hrev c
    rw [← hs2def] at this
    rw [this, (h1 c).1]
    simp [List.mem_reverse]
  have h2rest := removeObsList_preserves d ((s.nodes d).observing).reverse s1 c
  rw [← hs2def] at h2rest
  rw [hunfold]
  by_cases hc : c = d
  · subst hc
    rw [updNode_nodes_self]
    refine ⟨?_, ?_, ?_⟩
    · show (s2.nodes c).observers = _
      exact h2obs
    · show (s2.nodes c).observing = _
      rw [h2rest.1, (h1 c).2.1]
    · show (s2.nodes c).diffValue = _
      rw [h2rest.2, (h1 c).2.2]
  · rw [updNode_nodes_ne _ _ _ hc]
    refine ⟨h2obs, ?_, ?_⟩
    · rw [h2rest.1, (h1 c).2.1]
    · rw [h2rest.2, (h1 c).2.2]

/-! ## C6: the bidirectional observer/dependency invariant -/

/-- C6: the well-formedness invariant — a derivation appears in a cell's
observer set iff that cell appears in the derivation's dependency list, with
duplicate-free lists and neutral diff markers — is preserved both by the
bind/diff step and by disposal, for every derivation and every state
satisfying it. -/
theorem C6_observer_invariant (s : MobxState) (d : Nat) (h : GoodState s) :
    GoodState (bindDependencies s d) ∧ GoodState (clearObserving s d) := by
  obtain ⟨hinv, hobsNodup, hobserversNodup, hdiff⟩ := h
  constructor
  · rcases bindDependencies_spec s d hdiff (hobsNodup d) with ⟨hA, hB, hC⟩
    refine ⟨?_, ?_, ?_, hC⟩
    · intro a b
      rw [hB b]
      by_cases had : a = d
      · subst had
        rw [hA, dedupFirst_mem]
        by_cases hbp : b ∈ (s.nodes a).observing <;>
          by_cases hbn : b ∈ (((s.nodes a).newObserving.getD []).take
            (s.nodes a).unboundDepsCount)
        · rw [if_neg (fun h2 => h2.2 hbn), if_neg (fun h2 => h2.2 hbp)]
          exact ⟨fun _ => hbn, fun _ => (hinv a b).2 hbp⟩
        · rw [if_pos ⟨hbp, hbn⟩]
          simp [List.mem_filter, hbn]
        · rw [if_neg (fun h2 => hbp h2.1), if_pos ⟨hbn, hbp⟩]
          simp [hbn]
        · rw [if_neg (fun h2 => hbp h2.1), if_neg (fun h2 => hbn h2.1), hinv a b]
          simp [hbp, hbn]
      · rw [bindDependencies_observing_ne s d had, ← hinv a b]
        split_ifs with h1 h2
        · simp [List.mem_filter, had]
        · simp [had]
        · exact Iff.rfl
    · intro a
      by_cases had : a = d
      · subst had
        rw [hA]
        exact dedupFirst_nodup _
      · rw [bindDependencies_observing_ne s d had]
        exact hobsNodup a
    · intro a
      rw [hB a]
      split_ifs with h1 h2
      · exact (hobserversNodup a).filter _
      · rw [List.nodup_append]
        refine ⟨hobserversNodup a, List.nodup_singleton d, ?_⟩
        intro x hx hxd
        rw [List.mem_singleton] at hxd
        subst hxd
        exact h2.2 ((hinv x a).1 hx)
      · exact hobserversNodup a
  · refine ⟨?_, ?_, ?_, ?_⟩
    · intro a b
      rw [(clearObserving_fields s d (hobsNodup d) b).1,
        (clearObserving_fields s d (hobsNodup d) a).2.1]
      by_cases had : a = d
      · subst had
        by_cases hbp : b ∈ (s.nodes a).observing
        · rw [if_pos hbp]
          simp [List.mem_filter]
        · rw [if_neg hbp, hinv a b]
          simp [hbp]
      · rw [if_neg had, ← hinv a b]
        by_cases hbp : b ∈ (s.nodes d).observing
        · rw [if_pos hbp]
          simp [List.mem_filter, had]
        · rw [if_neg hbp]
    · intro a
      rw [(clearObserving_fields s d (hobsNodup d) a).2.1]
      by_cases had : a = d
      · rw [if_pos had]
        exact List.nodup_nil
      · rw [if_neg had]
        exact hobsNodup a
    · intro a
      rw [(clearObserving_fields s d (hobsNodup d) a).1]
      by_cases hap : a ∈ (s.nodes d).observing
      · rw [if_pos hap]
        exact (hobserversNodup a).filter _
      · rw [if_neg hap]
        exact hobserversNodup a
    · intro a
      rw [(clearObserving_fields s d (hobsNodup d) a).2.2]
      exact hdiff a

/-- C6 witness: the invariant preservation applied to the empty heap and
derivation 0. -/
theorem C6_witness :
    GoodState stInit ∧
    (GoodState (bindDependencies stInit 0) ∧ GoodState (clearObserving stInit 0)) := by
  have h : GoodState stInit :=
    ⟨fun a b => by simp [stInit], fun a => by simp [stInit],
     fun a => by simp [stInit], fun a => by simp [stInit]⟩
  exact ⟨h, C6_observer_invariant stInit 0 h⟩

end MobxCore
